import Mathlib

/-!
Verification development for the card-counting blackjack simulation
(crate `blackjack_sim`).

The Rust sources are embedded shallowly:

* Machine integers (`u8`, `u32`, `i32`) are modelled as `ℕ`/`ℤ`; all values
  appearing in the simulation (hand totals, bet amounts, counters) are far
  below any overflow boundary.
* Money (`f32` in the source) is modelled as `ℚ`.  Every monetary value the
  engine manipulates is an integer number of half-units well below `2 ^ 23`
  (bets are `u32` values, payouts multiply by `1.5` or divide by `2`), and
  IEEE-754 single-precision addition and subtraction on such values is exact,
  so the rational model agrees with the `f32` arithmetic of the source.
* `HashMap<usize, f32>` (the per-hand bet log) and `HashMap<usize,
  SimulationSummary>` (the aggregator) are modelled as association lists with
  insert-or-overwrite / insert-or-merge semantics; the only folds the source
  performs over them compute sums and counts, which are independent of
  iteration order.
* Panics (`unwrap`, out-of-range indexing, failed `assert!`) are modelled by
  `Option`: `none` is a panic.  Fallible game operations returning
  `Result<_, BlackjackGameError>` are modelled by `Except String`.
* The random shuffle (`Deck::shuffle`, which uses `thread_rng`) is modelled by
  an oracle parameter `shuf : List Card → List Card` supplying the permuted
  card order; no claim in this development depends on the distribution of the
  shuffle.
* The generic strategy parameter `S: Strategy` of `PlayerSim<S>` is modelled
  by a type parameter `σ` (the strategy state) together with a record
  `Strategy σ` of the trait methods the engine calls.
-/

namespace BlackjackSim

/-- Modelled from the spec: `Card` lives in the external `blackjack_lib` crate,
whose source is not part of this repository.  Spec §3: a card is a rank and a
suit with a derived numeric value 1–10 and an ace flag.  Ranks are numbered
1–13 with 1 the ace and 11–13 the face cards; suits are numbered 0–3. -/
structure Card where
  suit : ℕ
  rank : ℕ
deriving DecidableEq

/-- Modelled from the spec: the numeric value 1–10 of a card (ace counts 1,
face cards count 10). -/
def Card.val (c : Card) : ℕ :=
  if 10 ≤ c.rank then 10 else c.rank

/-- Modelled from the spec: the ace flag (the source compares the rank string
against the string for an ace). -/
def Card.isAce (c : Card) : Bool :=
  c.rank == 1

/-- The incremental hand-value update shared by `PlayerSim::receive_card`
(player.rs 74–97) and `DealersHandSim::receive_card` (table.rs 24–41): add the
card value to every present total, then, if there is a single total that is at
most 11 and the new card is an ace, push the alternative (soft) total. -/
def update_hand_value (hv : List ℕ) (cardVal : ℕ) : List ℕ :=
  let hv1 : List ℕ :=
    match hv with
    | [] => [cardVal]
    | [a] => [a + cardVal]
    | a :: b :: _ => [a + cardVal, b + cardVal]
  match hv1 with
  | [a] => if a ≤ 11 ∧ cardVal = 1 then [a, a + 10] else [a]
  | l => l

/-- Replace the element at index `i` by `f` applied to it; out-of-range
indices (a panic in the Rust source) leave the list unchanged. -/
def modifyAt {α : Type} (l : List α) (i : ℕ) (f : α → α) : List α :=
  match l.get? i with
  | some a => l.set i (f a)
  | none => l

/-- Insert-or-overwrite into an association list, the behaviour of
`HashMap::insert` used for `PlayerSim::bets_log`. -/
def logInsert (l : List (ℕ × ℚ)) (k : ℕ) (v : ℚ) : List (ℕ × ℚ) :=
  if l.any (fun p => p.1 == k) then
    l.map (fun p => if p.1 = k then (k, v) else p)
  else
    l ++ [(k, v)]

/-- The `f32` → `u32` cast (`balance as u32`): truncation toward zero,
saturating at zero for negative values. -/
def ratToNat (q : ℚ) : ℕ :=
  q.floor.toNat

/-- The snapshot handed to a decision policy (`TableState`, strategy.rs 16–33,
minus the running/true counts, which are recovered from the strategy state
passed alongside it). -/
structure TableState where
  hand : List Card
  hand_value : List ℕ
  bet : ℕ
  balance : ℚ
  dealers_up_card : Card

/-- The `Strategy` trait (strategy.rs 140–180) restricted to the methods the
engine calls, over an abstract strategy state `σ`: `update` absorbs one seen
card into the counting state, `bet` is the betting policy (a function of the
counting state and the balance, the contents of `BetState`), `decide_option`
is the decision policy and `reset` clears the counting state. -/
structure Strategy (σ : Type) where
  update : σ → Card → σ
  bet : σ → ℚ → ℕ
  decide_option : σ → TableState → List String → Except String String
  reset : σ → σ

/-- `PlayerSim<S>` (player.rs 9–18).  `strategy` is the abstract strategy
state; `bets_log` is the `HashMap<usize, f32>` modelled as an association
list in insertion order. -/
structure PlayerSim (σ : Type) where
  hand : List (List Card)
  hand_values : List (List ℕ)
  bets : List ℕ
  bets_log : List (ℕ × ℚ)
  hand_idx : ℕ
  balance : ℚ
  strategy : σ
  surrender_flag : Bool

namespace PlayerSim

variable {σ : Type}

/-- `PlayerSim::new` (player.rs 22–33). -/
def new (starting_balance : ℚ) (strategy : σ) (surrender_flag : Bool) : PlayerSim σ :=
  { hand := [[]]
    hand_values := [[]]
    bets := []
    bets_log := []
    hand_idx := 0
    balance := starting_balance
    strategy := strategy
    surrender_flag := surrender_flag }

/-- `turn_is_over` (player.rs 36–38). -/
def turn_is_over (p : PlayerSim σ) : Bool :=
  p.hand_idx == p.hand.length

/-- `continue_play` (player.rs 41–43): `(balance as u32) >= min_bet`. -/
def continue_play (p : PlayerSim σ) (min_bet : ℕ) : Bool :=
  min_bet ≤ ratToNat p.balance

/-- `get_current_bet` (player.rs 46–48); out-of-range indexing is a panic in
the source, modelled by the default 0. -/
def get_current_bet (p : PlayerSim σ) : ℕ :=
  p.bets.getD p.hand_idx 0

/-- `PlayerSim::bet` (player.rs 56–64): query the betting policy; a zero bet
becomes the error "out of funds". -/
def bet (st : Strategy σ) (p : PlayerSim σ) : Except String ℕ :=
  let b := st.bet p.strategy p.balance
  if b = 0 then Except.error "out of funds" else Except.ok b

/-- `place_bet` (player.rs 68–71): debit the balance and push the bet. -/
def place_bet (p : PlayerSim σ) (b : ℚ) : PlayerSim σ :=
  { p with balance := p.balance - b, bets := p.bets ++ [ratToNat b] }

/-- `receive_card` (player.rs 74–97): push the card onto the current sub-hand
and update its value incrementally. -/
def receive_card (p : PlayerSim σ) (c : Card) : PlayerSim σ :=
  { p with
    hand := modifyAt p.hand p.hand_idx (fun h => h ++ [c])
    hand_values := modifyAt p.hand_values p.hand_idx (fun hv => update_hand_value hv c.val) }

/-- `update_strategy` (player.rs 174–178): fold the counting update over the
given cards. -/
def update_strategy (st : Strategy σ) (p : PlayerSim σ) (cs : List Card) : PlayerSim σ :=
  { p with strategy := cs.foldl st.update p.strategy }

/-- `stand` (player.rs 182–184). -/
def stand (p : PlayerSim σ) : PlayerSim σ :=
  { p with hand_idx := p.hand_idx + 1 }

/-- `can_split` (player.rs 139–144). -/
def can_split (p : PlayerSim σ) : Bool :=
  p.hand.length < 4 &&
    (p.hand.getD p.hand_idx []).length == 2 &&
    ((p.hand.getD p.hand_idx []).getD 0 ⟨0, 0⟩).rank ==
      ((p.hand.getD p.hand_idx []).getD 1 ⟨0, 0⟩).rank &&
    decide ((p.bets.getD p.hand_idx 0 : ℚ) ≤ p.balance)

/-- `can_double_down` (player.rs 147–162): first sub-hand, balance covering an
additional equal stake, and one of the present totals equal to 9, 10 or 11. -/
def can_double_down (p : PlayerSim σ) : Bool :=
  p.hand_idx == 0 &&
    decide ((p.bets.getD p.hand_idx 0 : ℚ) ≤ p.balance) &&
    (if (p.hand_values.getD p.hand_idx []).length == 2 then
      let v0 := (p.hand_values.getD p.hand_idx []).getD 0 0
      let v1 := (p.hand_values.getD p.hand_idx []).getD 1 0
      v0 == 9 || v1 == 9 || v0 == 10 || v1 == 10 || v0 == 11 || v1 == 11
    else
      let v0 := (p.hand_values.getD p.hand_idx []).getD 0 0
      v0 == 9 || v0 == 10 || v0 == 11)

/-- `can_surrender` (player.rs 187–191). -/
def can_surrender (p : PlayerSim σ) (dealers_up_card : Card) : Bool :=
  p.hand_idx == 0 &&
    (p.hand_values.getD p.hand_idx []).length == 2 &&
    (dealers_up_card.val == 1 || dealers_up_card.val == 10)

/-- `has_blackjack` (player.rs 165–171). -/
def has_blackjack (p : PlayerSim σ) : Bool :=
  p.hand_idx == 0 &&
    (match p.hand.getD p.hand_idx [] with
     | [c0, c1] => (c0.val == 10 && c1.isAce) || (c0.isAce && c1.val == 10)
     | _ => false)

/-- `get_playing_options` (player.rs 119–134); the `HashSet<String>` is
modelled as a list, membership being all the engine consults. -/
def get_playing_options (p : PlayerSim σ) (dealers_up_card : Card) : List String :=
  ["stand", "hit"] ++
    (if p.surrender_flag && p.can_surrender dealers_up_card then ["surrender"] else []) ++
    (if p.can_split then ["split"] else []) ++
    (if p.can_double_down then ["double down"] else [])

/-- `push_current_hand` (player.rs 195–201): return the bet, zero it, log 0,
advance. -/
def push_current_hand (p : PlayerSim σ) : PlayerSim σ :=
  let b := p.bets.getD p.hand_idx 0
  { p with
    balance := p.balance + b
    bets := p.bets.set p.hand_idx 0
    bets_log := logInsert p.bets_log p.hand_idx 0
    hand_idx := p.hand_idx + 1 }

/-- `lose_current_hand` (player.rs 205–210): zero the bet, log its negation,
advance; the balance is untouched. -/
def lose_current_hand (p : PlayerSim σ) : PlayerSim σ :=
  let b := p.bets.getD p.hand_idx 0
  { p with
    bets := p.bets.set p.hand_idx 0
    bets_log := logInsert p.bets_log p.hand_idx (-(b : ℚ))
    hand_idx := p.hand_idx + 1 }

/-- `blackjack` (player.rs 213–219): return the bet, zero it, log the
winnings, advance. -/
def blackjack (p : PlayerSim σ) (winnings : ℚ) : PlayerSim σ :=
  let b := p.bets.getD p.hand_idx 0
  { p with
    balance := p.balance + b
    bets := p.bets.set p.hand_idx 0
    bets_log := logInsert p.bets_log p.hand_idx winnings
    hand_idx := p.hand_idx + 1 }

/-- `win_hand` (player.rs 222–225): credit the bet back and log it. -/
def win_hand (p : PlayerSim σ) (hand : ℕ) (bet : ℕ) : PlayerSim σ :=
  { p with balance := p.balance + bet, bets_log := logInsert p.bets_log hand (bet : ℚ) }

/-- `lose_hand` (player.rs 228–230): log the negated bet. -/
def lose_hand (p : PlayerSim σ) (hand : ℕ) (bet : ℕ) : PlayerSim σ :=
  { p with bets_log := logInsert p.bets_log hand (-(bet : ℚ)) }

/-- `push_hand` (player.rs 233–236): credit the bet back and log 0. -/
def push_hand (p : PlayerSim σ) (hand : ℕ) (bet : ℕ) : PlayerSim σ :=
  { p with balance := p.balance + bet, bets_log := logInsert p.bets_log hand 0 }

/-- `collect_winnings` (player.rs 239–241). -/
def collect_winnings (p : PlayerSim σ) (winnings : ℚ) : PlayerSim σ :=
  { p with balance := p.balance + winnings }

/-- `busted` (player.rs 245–251). -/
def busted (p : PlayerSim σ) : Bool :=
  if (p.hand_values.getD p.hand_idx []).length == 2 then
    decide (21 < (p.hand_values.getD p.hand_idx []).getD 0 0) &&
      decide (21 < (p.hand_values.getD p.hand_idx []).getD 1 0)
  else
    decide (21 < (p.hand_values.getD p.hand_idx []).getD 0 0)

/-- `PlayerSim::surrender` (player.rs 254–260): zero the bet, credit half of
it back, advance. -/
def surrender (p : PlayerSim σ) : PlayerSim σ :=
  let b : ℚ := (p.bets.getD p.hand_idx 0 : ℚ)
  { p with
    bets := p.bets.set p.hand_idx 0
    balance := p.balance + b / 2
    hand_idx := p.hand_idx + 1 }

/-- `PlayerSim::double_down` (player.rs 263–267): debit an additional equal
stake and double the bet (the source `assert!` that the balance covers it is a
precondition, not re-modelled). -/
def double_down (p : PlayerSim σ) : PlayerSim σ :=
  { p with
    balance := p.balance - (p.bets.getD p.hand_idx 0 : ℚ)
    bets := p.bets.set p.hand_idx (2 * p.bets.getD p.hand_idx 0) }

/-- `PlayerSim::split` (player.rs 271–304): duplicate the bet, move the second
card into a new sub-hand inserted right after the current one, push one fresh
card onto each of the two hands and recompute both hand values. -/
def split (p : PlayerSim σ) (card1 card2 : Card) : PlayerSim σ :=
  let i := p.hand_idx
  let cur_bet := p.bets.getD i 0
  let bets' := p.bets.insertIdx (i + 1) cur_bet
  let curHand := p.hand.getD i []
  let new_hand_start := curHand.getLastD ⟨0, 0⟩
  let hand' := (p.hand.set i curHand.dropLast).insertIdx (i + 1) [new_hand_start]
  let hv' := (p.hand_values.set i []).insertIdx (i + 1) ([] : List ℕ)
  let hand'' := modifyAt (modifyAt hand' i (fun h => h ++ [card1])) (i + 1)
    (fun h => h ++ [card2])
  let h1 := hand''.getD i []
  let v1 := (h1.map Card.val).sum
  let hvA := if v1 ≤ 11 ∧ ((h1.getD 0 ⟨0, 0⟩).isAce ∨ (h1.getD 1 ⟨0, 0⟩).isAce) then
    [v1, v1 + 10] else [v1]
  let h2 := hand''.getD (i + 1) []
  let v2 := (h2.map Card.val).sum
  let hvB := if v2 ≤ 11 ∧ ((h2.getD 0 ⟨0, 0⟩).isAce ∨ (h2.getD 1 ⟨0, 0⟩).isAce) then
    [v2, v2 + 10] else [v2]
  { p with
    bets := bets'
    hand := hand''
    hand_values := (hv'.set i hvA).set (i + 1) hvB }

/-- `get_optimal_hands` (player.rs 306–320): the indices, bets and optimal
totals of every sub-hand still carrying a positive bet. -/
def get_optimal_hands (computeOptimal : List ℕ → ℕ) (p : PlayerSim σ) :
    Option (List (ℕ × ℕ × ℕ)) :=
  let res := ((p.bets.zip p.hand_values).enum.filter (fun x => 0 < x.2.1)).map
    (fun x => (x.1, x.2.1, computeOptimal x.2.2))
  if res.isEmpty then none else some res

/-- `decide_option` (player.rs 323–334). -/
def decide_option (st : Strategy σ) (p : PlayerSim σ) (dealers_up_card : Card) :
    Except String String :=
  st.decide_option p.strategy
    { hand := p.hand.getD p.hand_idx []
      hand_value := p.hand_values.getD p.hand_idx []
      bet := p.get_current_bet
      balance := p.balance
      dealers_up_card := dealers_up_card }
    (p.get_playing_options dealers_up_card)

/-- `reset_strategy` (player.rs 341–343). -/
def reset_strategy (st : Strategy σ) (p : PlayerSim σ) : PlayerSim σ :=
  { p with strategy := st.reset p.strategy }

/-- `PlayerSim::reset` (player.rs 345–351): back to a single empty sub-hand;
balance and strategy state are kept. -/
def reset (p : PlayerSim σ) : PlayerSim σ :=
  { p with
    hand := [[]]
    hand_values := [[]]
    bets := []
    bets_log := []
    hand_idx := 0 }

end PlayerSim

/-- Modelled from the spec: `compute_optimal_hand` lives in the external
`blackjack_lib` crate.  Spec §4.3: select the higher total when both the hard
and the soft variant are at most 21, otherwise the lower one. -/
def compute_optimal_hand (hv : List ℕ) : ℕ :=
  match hv with
  | [a] => a
  | [a, b] => if a ≤ 21 ∧ b ≤ 21 then max a b else min a b
  | _ => 0

/-- The suits of one deck (game.rs 39, `SUITS` of `blackjack_lib`, modelled
from the spec: four suits). -/
def SUITS : List ℕ :=
  [0, 1, 2, 3]

/-- The ranks of one deck (game.rs 40, `RANKS` of `blackjack_lib`, modelled
from the spec: the thirteen ranks, here 1 = ace, 11–13 = face cards). -/
def RANKS : List ℕ :=
  [1, 2, 3, 4, 5, 6, 7, 8, 9, 10, 11, 12, 13]

/-- `build_card_deck` (game.rs 36–46): `n_decks` copies of the 52 cards in a
fixed suit/rank order. -/
def build_card_deck (n_decks : ℕ) : List Card :=
  (List.range n_decks).flatMap (fun _ =>
    SUITS.flatMap (fun s => RANKS.map (fun r => Card.mk s r)))

/-- The shoe (`DeckSim`, game.rs 25–31; `blackjack_lib::Deck` used by the
table has the same interface and fields). -/
structure Deck where
  cards : List Card
  deck_pos : ℕ
  shuffle_flag_pos : ℕ
  shuffle_flag : Bool

namespace Deck

/-- `DeckSim::new` (game.rs 49–62): a fresh shoe with the shuffle flag raised
and the penetration point at 80 % of the last index. -/
def new (n_decks : ℕ) : Deck :=
  let cards := build_card_deck n_decks
  { cards := cards
    deck_pos := 0
    shuffle_flag_pos := (cards.length - 1) * 4 / 5
    shuffle_flag := true }

/-- `DeckSim::shuffle` (game.rs 65–76); the random permutation is supplied by
the oracle `shuf`.  Resets the cursor and clears the shuffle flag. -/
def shuffle (d : Deck) (shuf : List Card → List Card) : Deck :=
  { d with cards := shuf d.cards, deck_pos := 0, shuffle_flag := false }

/-- `get_next_card` (game.rs 79–90): the card under the cursor, advancing it
and raising the shuffle flag at the penetration point. -/
def get_next_card (d : Deck) : Option (Card × Deck) :=
  match d.cards.get? d.deck_pos with
  | some c =>
    some (c, { d with
      deck_pos := d.deck_pos + 1
      shuffle_flag := if d.deck_pos + 1 = d.shuffle_flag_pos then true else d.shuffle_flag })
  | none => none

end Deck

/-- `DealersHandSim` (table.rs 9–12). -/
structure DealersHandSim where
  hand : List Card
  hand_value : List ℕ
deriving DecidableEq

namespace DealersHandSim

/-- `DealersHandSim::new` (table.rs 16–21). -/
def new : DealersHandSim :=
  { hand := [], hand_value := [] }

/-- `DealersHandSim::receive_card` (table.rs 24–41): same incremental value
update as the player's. -/
def receive_card (d : DealersHandSim) (c : Card) : DealersHandSim :=
  { hand := d.hand ++ [c], hand_value := update_hand_value d.hand_value c.val }

/-- `DealersHandSim::has_blackjack` (table.rs 57–61). -/
def has_blackjack (d : DealersHandSim) : Bool :=
  match d.hand with
  | [c0, c1] => (c0.val == 10 && c1.isAce) || (c0.isAce && c1.val == 10)
  | _ => false

/-- `DealersHandSim::reset` (table.rs 64–67). -/
def reset (_d : DealersHandSim) : DealersHandSim :=
  { hand := [], hand_value := [] }

end DealersHandSim

/-- `BlackjackTableSim` (table.rs 71–80). -/
structure BlackjackTableSim where
  balance : ℚ
  hand_log : Option (ℤ × ℤ × ℤ × ℚ)
  final_cards : List Card
  dealers_hand : DealersHandSim
  num_player_blackjacks : ℤ
  n_shuffles : ℕ
  deck : Deck

namespace BlackjackTableSim

variable {σ : Type}

/-- `BlackjackTable::new` for the simulated table (table.rs 86–98). -/
def new (starting_balance : ℚ) (n_decks : ℕ) (n_shuffles : ℕ) : BlackjackTableSim :=
  { balance := starting_balance
    hand_log := none
    final_cards := []
    dealers_hand := DealersHandSim.new
    num_player_blackjacks := 0
    n_shuffles := n_shuffles
    deck := Deck.new n_decks }

/-- `place_bet` (table.rs 101–116). -/
def place_bet (t : BlackjackTableSim) (p : PlayerSim σ) (bet : ℚ) :
    Except String (PlayerSim σ) :=
  if bet ≤ 0 then Except.error "bet must be a positive amount"
  else if t.balance < 3 / 2 * bet then
    Except.error "insufficient table balance to payout bet"
  else Except.ok (p.place_bet bet)

/-- `deal_hand` (table.rs 119–163): shuffle if due (resetting the counting
state), deal player/up-card/player/hole-card updating the count for all but
the hole card, then resolve dealer and player blackjacks immediately. -/
def deal_hand (st : Strategy σ) (shuf : List Card → List Card)
    (t : BlackjackTableSim) (p : PlayerSim σ) :
    Option (BlackjackTableSim × PlayerSim σ) := do
  if p.bets.isEmpty then none
  else
    let td := if t.deck.shuffle_flag then t.deck.shuffle shuf else t.deck
    let p0 := if t.deck.shuffle_flag then p.reset_strategy st else p
    let (c1, d1) ← td.get_next_card
    let p1 := (p0.receive_card c1).update_strategy st [c1]
    let (c2, d2) ← d1.get_next_card
    let dh1 := t.dealers_hand.receive_card c2
    let p2 := p1.update_strategy st [c2]
    let (c3, d3) ← d2.get_next_card
    let p3 := (p2.receive_card c3).update_strategy st [c3]
    let (c4, d4) ← d3.get_next_card
    let dh2 := dh1.receive_card c4
    let t4 := { t with deck := d4, dealers_hand := dh2 }
    if dh2.has_blackjack then
      let p4 := p3.update_strategy st [dh2.hand.getD 1 ⟨0, 0⟩]
      if p4.has_blackjack then
        pure ({ t4 with num_player_blackjacks := t4.num_player_blackjacks + 1 },
          p4.push_current_hand)
      else
        pure (t4, p4.lose_current_hand)
    else if p3.has_blackjack then
      let current_bet : ℚ := (p3.get_current_bet : ℚ)
      pure ({ t4 with
          balance := t4.balance - current_bet * (3 / 2)
          num_player_blackjacks := t4.num_player_blackjacks + 1 },
        p3.blackjack (current_bet * (3 / 2)))
    else
      pure (t4, p3)

/-- `hit` (table.rs 167–175): draw one card into the current sub-hand,
update the count, and resolve the sub-hand as lost if it busts. -/
def hit (st : Strategy σ) (t : BlackjackTableSim) (p : PlayerSim σ) :
    Option (BlackjackTableSim × PlayerSim σ) := do
  let (c, d) ← t.deck.get_next_card
  let p1 := (p.receive_card c).update_strategy st [c]
  let p2 := if p1.busted then p1.lose_current_hand else p1
  pure ({ t with deck := d }, p2)

/-- `BlackjackTableSim::double_down` (table.rs 178–185): double the bet
through the player, draw exactly one card, update the count, stand. -/
def double_down (st : Strategy σ) (t : BlackjackTableSim) (p : PlayerSim σ) :
    Option (BlackjackTableSim × PlayerSim σ) := do
  let p1 := p.double_down
  let (c, d) ← t.deck.get_next_card
  let p2 := ((p1.receive_card c).update_strategy st [c]).stand
  pure ({ t with deck := d }, p2)

/-- `BlackjackTableSim::split` (table.rs 188–196): draw two fresh cards, split
through the player, and update the count with both. -/
def split (st : Strategy σ) (t : BlackjackTableSim) (p : PlayerSim σ) :
    Option (BlackjackTableSim × PlayerSim σ) := do
  let (c1, d1) ← t.deck.get_next_card
  let (c2, d2) ← d1.get_next_card
  let p1 := (p.split c1 c2).update_strategy st [c1, c2]
  pure ({ t with deck := d2 }, p1)

/-- `BlackjackTableSim::surrender` (table.rs 321–322): the body is an empty
TODO stub in the source; neither table nor player state changes. -/
def surrender (t : BlackjackTableSim) (p : PlayerSim σ) :
    BlackjackTableSim × PlayerSim σ :=
  (t, p)

/-- `play_option` (table.rs 293–307): dispatch on the option string. -/
def play_option (st : Strategy σ) (t : BlackjackTableSim) (p : PlayerSim σ)
    (opt : String) : Option (Except String (BlackjackTableSim × PlayerSim σ)) :=
  if opt = "stand" then some (Except.ok (t, p.stand))
  else if opt = "hit" then (hit st t p).map Except.ok
  else if opt = "split" then (split st t p).map Except.ok
  else if opt = "double down" then (double_down st t p).map Except.ok
  else if opt = "surrender" then some (Except.ok (surrender t p))
  else some (Except.error "option not available")

end BlackjackTableSim

/-- One dealer drawing loop (the `while` loops of
`get_dealers_optimal_final_hand`, table.rs 204–244): keep drawing while
`cond` holds of the dealer's hand value.  `fuel` bounds the iterations; it is
instantiated with the full shoe size, an upper bound on the possible draws, so
running out of fuel coincides with drawing from an exhausted shoe (a panic in
the source). -/
def dealerLoop (cond : List ℕ → Bool) :
    ℕ → Deck → DealersHandSim → List Card → Option (Deck × DealersHandSim × List Card)
  | fuel, d, h, fc =>
    if cond h.hand_value then
      match fuel with
      | 0 => none
      | fuel' + 1 =>
        match d.get_next_card with
        | none => none
        | some (c, d') => dealerLoop cond fuel' d' (h.receive_card c) (fc ++ [c])
    else some (d, h, fc)

namespace BlackjackTableSim

variable {σ : Type}

/-- `get_dealers_optimal_final_hand` (table.rs 204–244): reveal the hole card
into `final_cards`, draw to the dealer's stopping rule and select the final
total. -/
def get_dealers_optimal_final_hand (t : BlackjackTableSim) :
    Option (ℕ × BlackjackTableSim) := do
  let hole ← t.dealers_hand.hand.get? 1
  let fc0 := t.final_cards ++ [hole]
  let fuel := t.deck.cards.length
  if t.dealers_hand.hand_value.length = 2 then
    let (d1, h1, fc1) ← dealerLoop
      (fun hv => decide (hv.getD 0 0 < 17) && decide (hv.getD 1 0 < 17))
      fuel t.deck t.dealers_hand fc0
    let (d2, h2, fc2) ← dealerLoop
      (fun hv => (decide (21 < hv.getD 0 0) && decide (hv.getD 1 0 < 17)) ||
        (decide (hv.getD 0 0 < 17) && decide (21 < hv.getD 1 0)))
      fuel d1 h1 fc1
    let v0 := h2.hand_value.getD 0 0
    let v1 := h2.hand_value.getD 1 0
    let v := if v0 ≤ 21 ∧ v1 ≤ 21 then max v0 v1 else min v0 v1
    pure (v, { t with deck := d2, dealers_hand := h2, final_cards := fc2 })
  else
    let (d1, h1, fc1) ← dealerLoop (fun hv => decide (hv.getD 0 0 < 17))
      fuel t.deck t.dealers_hand fc0
    pure (h1.hand_value.getD 0 0, { t with deck := d1, dealers_hand := h1, final_cards := fc1 })

/-- `finish_hand` (table.rs 247–287): settle every sub-hand still carrying a
positive bet against the dealer's final total, update the count with the cards
dealt face-down during dealer play, tally the bet log into the hand log, and
credit the net winnings when they are positive. -/
def finish_hand (st : Strategy σ) (t : BlackjackTableSim) (p : PlayerSim σ) :
    Option (BlackjackTableSim × PlayerSim σ) := do
  let (t1, p1) ←
    match p.get_optimal_hands compute_optimal_hand with
    | some players_final_hands => do
      let (dealers_optimal_hand, ta) ← t.get_dealers_optimal_final_hand
      let res := players_final_hands.foldl
        (fun (tp : BlackjackTableSim × PlayerSim σ) (x : ℕ × ℕ × ℕ) =>
          if 21 < dealers_optimal_hand ∨ dealers_optimal_hand < x.2.2 then
            ({ tp.1 with balance := tp.1.balance - (x.2.1 : ℚ) },
              tp.2.win_hand x.1 x.2.1)
          else if dealers_optimal_hand = x.2.2 then
            (tp.1, tp.2.push_hand x.1 x.2.1)
          else
            (tp.1, tp.2.lose_hand x.1 x.2.1))
        (ta, p)
      pure res
    | none => pure (t, p)
  let p2 := p1.update_strategy st t1.final_cards
  let acc := p2.bets_log.foldl
    (fun (a : ℤ × ℤ × ℤ × ℚ × BlackjackTableSim) (x : ℕ × ℚ) =>
      if x.2 ≠ 0 then
        if x.2 < 0 then
          (a.1, a.2.1, a.2.2.1 + 1, a.2.2.2.1 + x.2,
            { a.2.2.2.2 with balance := a.2.2.2.2.balance - x.2 })
        else
          (a.1 + 1, a.2.1, a.2.2.1, a.2.2.2.1 + x.2, a.2.2.2.2)
      else
        (a.1, a.2.1 + 1, a.2.2.1, a.2.2.2.1, a.2.2.2.2))
    ((0 : ℤ), (0 : ℤ), (0 : ℤ), (0 : ℚ), t1)
  let winnings := acc.2.2.2.1
  let p3 := if 0 < winnings then p2.collect_winnings winnings else p2
  pure ({ acc.2.2.2.2 with hand_log := some (acc.1, acc.2.1, acc.2.2.1, winnings) }, p3)

/-- `dealers_face_up_card` (table.rs 310–312). -/
def dealers_face_up_card (t : BlackjackTableSim) : Option Card :=
  t.dealers_hand.hand.get? 0

/-- `BlackjackTableSim::reset` (table.rs 315–319): clear the revealed cards,
the dealer's hand and the per-hand blackjack counter; the deck is kept. -/
def reset (t : BlackjackTableSim) : BlackjackTableSim :=
  { t with
    final_cards := []
    dealers_hand := t.dealers_hand.reset
    num_player_blackjacks := 0 }

end BlackjackTableSim

/-- `BlackjackGameSim<S>` (game.rs 95–106). -/
structure BlackjackGameSim (σ : Type) where
  table : BlackjackTableSim
  player : PlayerSim σ
  min_bet : ℕ
  num_hands : ℕ
  total_wins : ℤ
  total_pushes : ℤ
  total_losses : ℤ
  total_winnings : ℚ
  num_player_blackjacks : ℤ
  ended_early : Bool

namespace BlackjackGameSim

variable {σ : Type}

/-- The per-hand decision loop of `run` (game.rs 165–173): while the player's
turn is not over, fetch a decision and play it.  `fuel` bounds the
iterations; the source loop can in fact fail to terminate (the table's
surrender is a no-op), which the model reports as `none`. -/
def play_loop (st : Strategy σ) :
    ℕ → BlackjackTableSim → PlayerSim σ →
    Option (Except String (BlackjackTableSim × PlayerSim σ))
  | fuel, t, p =>
    if p.turn_is_over then some (Except.ok (t, p))
    else
      match fuel with
      | 0 => none
      | fuel' + 1 =>
        match t.dealers_face_up_card with
        | none => none
        | some up =>
          match PlayerSim.decide_option st p up with
          | Except.error e => some (Except.error e)
          | Except.ok opt =>
            match BlackjackTableSim.play_option st t p opt with
            | none => none
            | some (Except.error e) => some (Except.error e)
            | some (Except.ok (t', p')) => play_loop st fuel' t' p'

/-- One hand's bookkeeping at the end of a `run` iteration (game.rs 179–190):
fold the table's hand log into the running totals and reset player and table
for the next hand. -/
def log_hand (g : BlackjackGameSim σ) (t : BlackjackTableSim) (p : PlayerSim σ) :
    BlackjackGameSim σ :=
  let g1 :=
    match t.hand_log with
    | some (w, pu, lo, ws) =>
      { g with
        total_wins := g.total_wins + w
        total_pushes := g.total_pushes + pu
        total_losses := g.total_losses + lo
        total_winnings := g.total_winnings + ws }
    | none => g
  { g1 with
    num_player_blackjacks := g1.num_player_blackjacks + t.num_player_blackjacks
    player := p.reset
    table := t.reset }

/-- `BlackjackGameSim::run` (game.rs 136–194), recursing on the remaining
number of hands; `fuel` bounds each hand's decision loop. -/
def run (st : Strategy σ) (shuf : List Card → List Card) (fuel : ℕ) :
    ℕ → BlackjackGameSim σ → Option (Except String (BlackjackGameSim σ))
  | 0, g => some (Except.ok g)
  | n + 1, g =>
    if ¬ g.player.continue_play g.min_bet then
      some (Except.ok { g with ended_early := true })
    else
      match PlayerSim.bet st g.player with
      | Except.error e => some (Except.error e)
      | Except.ok b =>
        if b < g.min_bet then
          some (Except.error "player tried to bet less than table minimum")
        else
          let p0 := g.player.place_bet (b : ℚ)
          match BlackjackTableSim.deal_hand st shuf g.table p0 with
          | none => none
          | some (t1, p1) =>
            match play_loop st fuel t1 p1 with
            | none => none
            | some (Except.error e) => some (Except.error e)
            | some (Except.ok (t2, p2)) =>
              match BlackjackTableSim.finish_hand st t2 p2 with
              | none => none
              | some (t3, p3) => run st shuf fuel n (log_hand g t3 p3)

end BlackjackGameSim

/-- The totals one `BlackjackGameSim::run` leaves in the game's public fields,
read back by the simulator (lib.rs 218–235).  The game itself is driven by the
strategy, the shoe and the shuffle oracle; for the simulator layer those runs
are abstracted by their recorded totals. -/
structure RunTotals where
  total_wins : ℤ
  total_pushes : ℤ
  total_losses : ℤ
  total_winnings : ℚ
  num_player_blackjacks : ℤ
  ended_early : Bool
deriving DecidableEq

/-- `SimulationSummary` (lib.rs 28–37). -/
structure SimulationSummary where
  wins : ℤ
  pushes : ℤ
  losses : ℤ
  early_endings : ℤ
  winnings : ℚ
  num_hands : ℕ
  player_blackjacks : ℤ
  label : String
deriving DecidableEq

/-- The accumulating fields of `BlackjackSimulator<S>` (lib.rs 123–139). -/
structure BlackjackSimulator where
  accumulated_wins : ℤ
  accumulated_pushes : ℤ
  accumulated_losses : ℤ
  accumulated_winnings : ℚ
  num_early_endings : ℤ
  num_player_blackjacks : ℤ
  num_simulations : ℕ
  hands_per_simulation : ℕ
  label : String
deriving DecidableEq

namespace BlackjackSimulator

/-- `run_single_simulation` (lib.rs 218–235): run one game and fold its
recorded totals into the accumulated fields. -/
def run_single_simulation (s : BlackjackSimulator) (r : RunTotals) : BlackjackSimulator :=
  { s with
    accumulated_wins := s.accumulated_wins + r.total_wins
    accumulated_pushes := s.accumulated_pushes + r.total_pushes
    accumulated_losses := s.accumulated_losses + r.total_losses
    accumulated_winnings := s.accumulated_winnings + r.total_winnings
    num_player_blackjacks := s.num_player_blackjacks + r.num_player_blackjacks
    num_early_endings := s.num_early_endings + (if r.ended_early then 1 else 0) }

/-- `summary` (lib.rs 276–287): a `SimulationSummary` built from the current
accumulated fields. -/
def summary (s : BlackjackSimulator) : SimulationSummary :=
  { wins := s.accumulated_wins
    pushes := s.accumulated_pushes
    losses := s.accumulated_losses
    early_endings := s.num_early_endings
    winnings := s.accumulated_winnings
    num_hands := s.num_simulations * s.hands_per_simulation
    player_blackjacks := s.num_player_blackjacks
    label := s.label }

/-- `BlackjackSimulation::reset` (lib.rs 291–295): only
`game.reset(table_balance, player_balance)` is called, which restores the
game's per-run totals and balances; none of the simulator's accumulated
fields is touched. -/
def reset (s : BlackjackSimulator) : BlackjackSimulator :=
  s

/-- The per-worker loop of `MulStrategyBlackjackSimulator::run` (lib.rs
340–359): for each of the configured simulation runs, run a single
simulation, send the summary, and reset; the runs' game totals are given by
`rs`.  Returns the summaries sent (in order) and the final simulator state;
the terminal `(None, id)` sentinel follows them on the channel. -/
def worker (s : BlackjackSimulator) (rs : List RunTotals) :
    List SimulationSummary × BlackjackSimulator :=
  rs.foldl
    (fun (acc : List SimulationSummary × BlackjackSimulator) (r : RunTotals) =>
      let s1 := acc.2.run_single_simulation r
      (acc.1 ++ [s1.summary], s1.reset))
    ([], s)

end BlackjackSimulator

/-- Merge one received summary delta into the aggregator's per-id entry
(stats.rs 72–78 / write.rs 32–38): the six counter fields are added;
`num_hands` and `label` are kept from the existing entry. -/
def mergeSummary (acc new : SimulationSummary) : SimulationSummary :=
  { acc with
    wins := acc.wins + new.wins
    pushes := acc.pushes + new.pushes
    losses := acc.losses + new.losses
    winnings := acc.winnings + new.winnings
    player_blackjacks := acc.player_blackjacks + new.player_blackjacks
    early_endings := acc.early_endings + new.early_endings }

/-- Insert-or-merge into the aggregator's per-id map (`summaries` in
stats.rs/write.rs `write`): merge into an existing entry, otherwise insert the
summary as the first entry for its id. -/
def aggInsert (m : List (ℕ × SimulationSummary)) (id : ℕ) (s : SimulationSummary) :
    List (ℕ × SimulationSummary) :=
  if m.any (fun p => p.1 == id) then
    m.map (fun p => if p.1 = id then (p.1, mergeSummary p.2 s) else p)
  else
    m ++ [(id, s)]

/-- The aggregator loop of `write` (stats.rs 63–95 / write.rs 23–57),
consuming a finite sequence of channel messages: a `some` summary is merged
into the per-id map, a `none` sentinel removes its id from the pending set,
and the loop returns the map once the pending set is empty.  Exhausting the
messages first models the blocking `recv` on a channel that will never
deliver again. -/
def aggregate :
    List (Option SimulationSummary × ℕ) → Finset ℕ → List (ℕ × SimulationSummary) →
    Option (List (ℕ × SimulationSummary))
  | [], _, _ => none
  | (m, id) :: rest, pending, acc =>
    match m with
    | some s => aggregate rest pending (aggInsert acc id s)
    | none =>
      let pending' := pending.erase id
      if pending' = ∅ then some acc else aggregate rest pending' acc

/-- The HiLo point lookup table (strategy.rs 847–866): values 2–6 count +1,
7–9 count 0, ace (1) and ten-valued cards count −1.  The table is keyed by
`card.val`, which is always 1–10. -/
def hilo_lookup (v : ℕ) : ℤ :=
  if 2 ≤ v ∧ v < 7 then 1
  else if 7 ≤ v ∧ v < 10 then 0
  else if v = 1 ∨ v = 10 then -1
  else 0

/-- The Wong Halves point lookup table (strategy.rs 969–991).  The `f32`
running count only ever takes half-integer values of small magnitude, on
which `f32` addition is exact, so `ℚ` models it faithfully. -/
def wong_halves_lookup (v : ℕ) : ℚ :=
  if v = 1 ∨ v = 10 then -1
  else if v = 2 ∨ v = 7 then 1 / 2
  else if v = 3 ∨ v = 4 ∨ v = 6 then 1
  else if v = 5 then 3 / 2
  else if v = 8 then 0
  else if v = 9 then -(1 / 2)
  else 0

/-- The counting state of `HiLo` (strategy.rs 837–843); the derived
`true_count` is a pure function of these two fields and is not re-stored. -/
structure HiLo where
  running_count : ℤ
  total_cards_counted : ℤ
deriving DecidableEq

/-- `HiLo::new` / `CountingStrategy::reset` for HiLo (strategy.rs 847–866 and
932–936): both leave a zero running count and zero cards counted. -/
def HiLo.new : HiLo :=
  { running_count := 0, total_cards_counted := 0 }

/-- `CountingStrategy::update` for HiLo (strategy.rs 892–898). -/
def HiLo.update (s : HiLo) (c : Card) : HiLo :=
  { running_count := s.running_count + hilo_lookup c.val
    total_cards_counted := s.total_cards_counted + 1 }

/-- The counting state of `WongHalves` (strategy.rs 961–967). -/
structure WongHalves where
  running_count : ℚ
  total_cards_counted : ℤ
deriving DecidableEq

/-- `WongHalves::new` / its `reset` (strategy.rs 970–991 and 1046–1050). -/
def WongHalves.new : WongHalves :=
  { running_count := 0, total_cards_counted := 0 }

/-- `CountingStrategy::update` for WongHalves (strategy.rs 1038–1044). -/
def WongHalves.update (s : WongHalves) (c : Card) : WongHalves :=
  { running_count := s.running_count + wong_halves_lookup c.val
    total_cards_counted := s.total_cards_counted + 1 }

/-- The running count any point-count system of the counting-strategy family
accumulates over a card sequence from a freshly reset state: every concrete
`CountingStrategy::update` adds the card's looked-up point value to the
running count. -/
def running_count_after (pts : ℕ → ℚ) (cards : List Card) : ℚ :=
  cards.foldl (fun rc c => rc + pts c.val) 0

/-- A counting system is balanced when its per-card point values, taken over
the 52 cards of one full deck (and hence weighted by per-deck frequency), sum
to zero. -/
def balancedLookup (pts : ℕ → ℚ) : Prop :=
  ((build_card_deck 1).map (fun c => pts c.val)).sum = 0

/-! Helper lemmas. -/

theorem build_card_deck_succ (n : ℕ) :
    build_card_deck (n + 1) = build_card_deck n ++ build_card_deck 1 := by
  simp [build_card_deck, List.range_succ]

theorem hilo_foldl_running_count (l : List Card) (s : HiLo) :
    (l.foldl HiLo.update s).running_count
      = s.running_count + (l.map (fun c => hilo_lookup c.val)).sum := by
  induction l generalizing s with
  | nil => simp
  | cons c cs ih => simp [List.foldl_cons, ih, HiLo.update]; ring

theorem wong_foldl_running_count (l : List Card) (s : WongHalves) :
    (l.foldl WongHalves.update s).running_count
      = s.running_count + (l.map (fun c => wong_halves_lookup c.val)).sum := by
  induction l generalizing s with
  | nil => simp
  | cons c cs ih => simp [List.foldl_cons, ih, WongHalves.update]; ring

theorem running_count_after_eq_sum (pts : ℕ → ℚ) (l : List Card) :
    running_count_after pts l = (l.map (fun c => pts c.val)).sum := by
  have key : ∀ (l : List Card) (init : ℚ),
      l.foldl (fun rc c => rc + pts c.val) init
        = init + (l.map (fun c => pts c.val)).sum := by
    intro l
    induction l with
    | nil => simp
    | cons c cs ih => intro init; simp [List.foldl_cons, ih]; ring
  simpa [running_count_after] using key l 0

theorem deck_map_sum_smul {M : Type} [AddCommMonoid M] (f : Card → M) (n : ℕ) :
    ((build_card_deck n).map f).sum = n • ((build_card_deck 1).map f).sum := by
  induction n with
  | zero => simp [build_card_deck]
  | succ m ih =>
    rw [build_card_deck_succ]
    simp [ih, succ_nsmul]

theorem hilo_one_deck_sum :
    ((build_card_deck 1).map (fun c => hilo_lookup c.val)).sum = 0 := by
  decide

theorem wong_one_deck_sum :
    ((build_card_deck 1).map (fun c => wong_halves_lookup c.val)).sum = 0 := by
  simp only [build_card_deck, SUITS, RANKS, List.range_succ, List.range_zero,
    List.nil_append, List.flatMap_cons,
    List.flatMap_nil, List.map_cons, List.map_nil, List.append_nil, List.sum_cons,
    List.sum_nil]
  norm_num [wong_halves_lookup, Card.val]

theorem update_hand_value_length_pos (hv : List ℕ) (v : ℕ) :
    1 ≤ (update_hand_value hv v).length := by
  rcases hv with _ | ⟨a, _ | ⟨b, tl⟩⟩ <;> simp [update_hand_value] <;> split_ifs <;> simp

theorem update_hand_value_inv (hv : List ℕ) (v : ℕ)
    (hlen : hv.length ≤ 2) (hsoft : ∀ a b, hv = [a, b] → b = a + 10) :
    (update_hand_value hv v).length ≤ 2 ∧
      ∀ a b, update_hand_value hv v = [a, b] → b = a + 10 := by
  rcases hv with _ | ⟨a, _ | ⟨b, _ | ⟨c, tl⟩⟩⟩
  · constructor
    · simp [update_hand_value]; split_ifs <;> simp
    · intro x y
      simp only [update_hand_value]
      split_ifs with h
      · intro he
        obtain ⟨h1, h2⟩ := List.cons.injEq .. ▸ he
        simp_all
      · simp
  · constructor
    · simp [update_hand_value]; split_ifs <;> simp
    · intro x y
      simp only [update_hand_value]
      split_ifs with h
      · intro he
        simp only [List.cons.injEq] at he
        omega
      · simp
  · have hb := hsoft a b rfl
    constructor
    · simp [update_hand_value]
    · intro x y
      simp only [update_hand_value, List.cons.injEq]
      rintro ⟨hx, hy, -⟩
      omega
  · exfalso
    simp at hlen

theorem fold_update_hand_value_inv (cards : List Card) (hv : List ℕ)
    (hlen : hv.length ≤ 2) (hsoft : ∀ a b, hv = [a, b] → b = a + 10) :
    (cards.foldl (fun a c => update_hand_value a c.val) hv).length ≤ 2 ∧
    (∀ a b, cards.foldl (fun a c => update_hand_value a c.val) hv = [a, b] → b = a + 10) ∧
    ((1 ≤ hv.length ∨ cards ≠ []) →
      1 ≤ (cards.foldl (fun a c => update_hand_value a c.val) hv).length) := by
  induction cards generalizing hv with
  | nil =>
    refine ⟨hlen, hsoft, ?_⟩
    rintro (h | h)
    · simpa using h
    · simp at h
  | cons c cs ih =>
    obtain ⟨hlen1, hsoft1⟩ := update_hand_value_inv hv c.val hlen hsoft
    obtain ⟨ihlen, ihsoft, ihpos⟩ := ih (update_hand_value hv c.val) hlen1 hsoft1
    refine ⟨by simpa using ihlen, by simpa using ihsoft, ?_⟩
    intro _
    simp only [List.foldl_cons]
    exact ihpos (Or.inl (update_hand_value_length_pos hv c.val))

theorem fold_receive_card_hand_values {σ : Type} (cards : List Card)
    (p : PlayerSim σ) (hv : List ℕ) (hidx : p.hand_idx = 0)
    (hval : p.hand_values = [hv]) :
    (cards.foldl PlayerSim.receive_card p).hand_values
      = [cards.foldl (fun a c => update_hand_value a c.val) hv] := by
  induction cards generalizing p hv with
  | nil => simpa using hval
  | cons c cs ih =>
    rw [List.foldl_cons, List.foldl_cons]
    apply ih
    · simp [PlayerSim.receive_card, hidx]
    · simp [PlayerSim.receive_card, hidx, hval, modifyAt]

/-- C9: for every balanced counting system provided (one whose per-card point
values, weighted by per-deck frequency, sum to zero) — in particular HiLo and
Wong Halves — updating a freshly reset count once with every card of a full
n-deck shoe built by `build_card_deck` yields a running count of exactly 0. -/
theorem claim_C9_balanced_count_full_shoe :
    (∀ pts : ℕ → ℚ, balancedLookup pts → ∀ n : ℕ,
      running_count_after pts (build_card_deck n) = 0) ∧
    (∀ n : ℕ, ((build_card_deck n).foldl HiLo.update HiLo.new).running_count = 0) ∧
    (∀ n : ℕ, ((build_card_deck n).foldl WongHalves.update WongHalves.new).running_count = 0) := by
  refine ⟨?_, ?_, ?_⟩
  · intro pts hbal n
    rw [running_count_after_eq_sum, deck_map_sum_smul]
    rw [balancedLookup] at hbal
    simp [hbal]
  · intro n
    rw [hilo_foldl_running_count, deck_map_sum_smul]
    simp [HiLo.new, hilo_one_deck_sum]
  · intro n
    rw [wong_foldl_running_count, deck_map_sum_smul]
    simp [WongHalves.new, wong_one_deck_sum]

/-- Witness for C9: the Wong Halves lookup table is balanced, and the running
count over a concrete six-deck shoe is 0. -/
theorem claim_C9_witness :
    balancedLookup wong_halves_lookup ∧
    running_count_after wong_halves_lookup (build_card_deck 6) = 0 :=
  ⟨wong_one_deck_sum,
    claim_C9_balanced_count_full_shoe.1 wong_halves_lookup wong_one_deck_sum 6⟩

/-- C10: for every card sequence received into a player hand, the hand-value
record holds one or two totals, a present soft total is always hard + 10 and
it is in effect only while it does not bust: dealt ace-6 the record is
(7, 17); after a further 9 the record is (16, 26), the hand is not busted, and
the optimal-hand selection discards the busted soft 26 in favour of the hard
16. -/
theorem claim_C10_hand_value_soft_hard :
    (∀ (σ : Type) (cards : List Card) (p : PlayerSim σ) (hv : List ℕ),
      p.hand_idx = 0 → p.hand_values = [hv] →
      (cards.foldl PlayerSim.receive_card p).hand_values
        = [cards.foldl (fun a c => update_hand_value a c.val) hv]) ∧
    (∀ cards : List Card, cards ≠ [] →
      1 ≤ (cards.foldl (fun a c => update_hand_value a c.val) []).length ∧
      (cards.foldl (fun a c => update_hand_value a c.val) []).length ≤ 2) ∧
    (∀ (cards : List Card) (a b : ℕ),
      cards.foldl (fun a c => update_hand_value a c.val) [] = [a, b] → b = a + 10) ∧
    ([Card.mk 0 1, Card.mk 1 6].foldl (fun a c => update_hand_value a c.val) [] = [7, 17]) ∧
    ([Card.mk 0 1, Card.mk 1 6, Card.mk 2 9].foldl
        (fun a c => update_hand_value a c.val) [] = [16, 26]) ∧
    (([Card.mk 0 1, Card.mk 1 6, Card.mk 2 9].foldl PlayerSim.receive_card
        (PlayerSim.new 500 () true)).busted = false) ∧
    compute_optimal_hand [16, 26] = 16 ∧ compute_optimal_hand [7, 17] = 17 := by
  refine ⟨?_, ?_, ?_, by decide, by decide, by decide, by decide, by decide⟩
  · intro σ cards p hv hidx hval
    exact fold_receive_card_hand_values cards p hv hidx hval
  · intro cards hcards
    have h := fold_update_hand_value_inv cards [] (by simp) (by simp)
    exact ⟨h.2.2 (Or.inr hcards), h.1⟩
  · intro cards a b hab
    exact (fold_update_hand_value_inv cards [] (by simp) (by simp)).2.1 a b hab

/-- Witness for C10: the general conjuncts instantiated at the concrete
ace-6-9 deal. -/
theorem claim_C10_witness :
    1 ≤ ([Card.mk 0 1, Card.mk 1 6, Card.mk 2 9].foldl
        (fun a c => update_hand_value a c.val) []).length ∧
    ([Card.mk 0 1, Card.mk 1 6, Card.mk 2 9].foldl
        (fun a c => update_hand_value a c.val) []).length ≤ 2 :=
  claim_C10_hand_value_soft_hard.2.1 [Card.mk 0 1, Card.mk 1 6, Card.mk 2 9] (by decide)

/-- C4 (code bug evidence): `play_option` with "surrender" dispatches to the
table's `surrender`, whose body is an empty TODO stub, so it returns Ok with
table and player completely unchanged — no half-bet forfeit, no half-bet
refund, no advance past the sub-hand. -/
theorem claim_C4_surrender_noop {σ : Type} (st : Strategy σ)
    (t : BlackjackTableSim) (p : PlayerSim σ) :
    BlackjackTableSim.play_option st t p "surrender" = some (Except.ok (t, p)) := by
  simp [BlackjackTableSim.play_option, BlackjackTableSim.surrender]

/-! Concrete fixtures used to evaluate the engine at specific inputs.  The
trace strategy instantiates the generic strategy state with the list of cards
passed to `update`, which is exactly the information every concrete counting
policy folds over. -/

def traceStrat : Strategy (List Card) :=
  { update := fun l c => l ++ [c]
    bet := fun _ _ => 5
    decide_option := fun _ _ _ => Except.ok "stand"
    reset := fun _ => [] }

/-- A table mid-hand: the dealer shows two nines (total 18) and the deck has
four more cards; the shuffle flag is down. -/
def tableFixture : BlackjackTableSim :=
  { balance := 1000
    hand_log := none
    final_cards := []
    dealers_hand := { hand := [⟨2, 9⟩, ⟨3, 9⟩], hand_value := [18] }
    num_player_blackjacks := 0
    n_shuffles := 7
    deck := { cards := [⟨0, 5⟩, ⟨1, 6⟩, ⟨2, 2⟩, ⟨3, 3⟩], deck_pos := 0,
              shuffle_flag_pos := 100, shuffle_flag := false } }

/-- A player about to split: a pair of 8s, bet 10, balance 100. -/
def splitFixture : PlayerSim (List Card) :=
  { hand := [[⟨0, 8⟩, ⟨1, 8⟩]]
    hand_values := [[16]]
    bets := [10]
    bets_log := []
    hand_idx := 0
    balance := 100
    strategy := []
    surrender_flag := true }

/-- A player entering settlement after splitting kings: sub-hand 0 holds
king-queen (total 20), sub-hand 1 holds king-2 (total 12), both carry bet 10,
both are stood, and the balance is 480 = 500 − 2·10. -/
def settleFixture : PlayerSim (List Card) :=
  { hand := [[⟨0, 13⟩, ⟨0, 12⟩], [⟨1, 13⟩, ⟨1, 2⟩]]
    hand_values := [[20], [12]]
    bets := [10, 10]
    bets_log := []
    hand_idx := 2
    balance := 480
    strategy := []
    surrender_flag := true }

/-- C3 (code-bug evidence): splitting the pair of 8s inserts the duplicated
bet 10 right after the current one, moves the second 8 into the new sub-hand,
deals one fresh card to each resulting hand and updates the counting policy
with both fresh cards — but the balance stays at 100: the additional stake is
never drawn from the balance, contradicting the claimed (and spec-stated)
atomic deduction that `double_down` does perform. -/
theorem claim_C3_split_keeps_balance :
    ∃ tp, BlackjackTableSim.split traceStrat tableFixture splitFixture = some tp ∧
      tp.2.bets = [10, 10] ∧
      tp.2.hand = [[⟨0, 8⟩, ⟨0, 5⟩], [⟨1, 8⟩, ⟨1, 6⟩]] ∧
      tp.2.hand_values = [[13], [14]] ∧
      tp.2.strategy = [⟨0, 5⟩, ⟨1, 6⟩] ∧
      tp.2.balance = 100 ∧ tp.2.balance ≠ splitFixture.balance - 10 := by
  norm_num [BlackjackTableSim.split, tableFixture, splitFixture, Deck.get_next_card,
    PlayerSim.split, PlayerSim.update_strategy, traceStrat, modifyAt, Card.val,
    Card.isAce]

/-- C2 (code-bug evidence): settling the two sub-hands of `settleFixture`
against the dealer's 18, sub-hand 0 (total 20) wins and sub-hand 1 (total 12)
loses.  Per-sub-hand accounting demands a settlement credit of bet + equal
profit = 20 for the winner and 0 for the loser, i.e. a final balance of 500;
the code credits only the returned bet (balance 490) because the win's profit
is paid from the netted winnings, which are 0 here — the outcome of one
sub-hand alters another's payout. -/
theorem claim_C2_win_profit_netted :
    ∃ tp, BlackjackTableSim.finish_hand traceStrat tableFixture settleFixture = some tp ∧
      tp.2.bets_log = [(0, 10), (1, -10)] ∧
      tp.1.hand_log = some (1, 0, 1, 0) ∧
      tp.2.balance = 490 ∧ tp.2.balance ≠ settleFixture.balance + 20 := by
  norm_num [BlackjackTableSim.finish_hand, tableFixture, settleFixture,
    PlayerSim.get_optimal_hands, compute_optimal_hand,
    BlackjackTableSim.get_dealers_optimal_final_hand, dealerLoop,
    Deck.get_next_card, PlayerSim.win_hand, PlayerSim.lose_hand,
    PlayerSim.push_hand, PlayerSim.update_strategy, PlayerSim.collect_winnings,
    logInsert, traceStrat, List.enum]

/-- The double-down legality condition exactly as claim C5 words it: the
current sub-hand is the original two-card hand and the balance permits
doubling the current bet (covers the additional equal stake). -/
def specDoubleDownLegal {σ : Type} (p : PlayerSim σ) : Prop :=
  p.hand_idx = 0 ∧ (p.hand.getD p.hand_idx []).length = 2 ∧
    (p.bets.getD p.hand_idx 0 : ℚ) ≤ p.balance

/-- A player holding a two-card hard 8 (5 and 3) with bet 10 and balance
100. -/
def hardEightFixture : PlayerSim (List Card) :=
  { hand := [[⟨0, 5⟩, ⟨1, 3⟩]]
    hand_values := [[8]]
    bets := [10]
    bets_log := []
    hand_idx := 0
    balance := 100
    strategy := []
    surrender_flag := true }

/-- C5 counterexample: a two-card original hand whose balance amply covers the
doubled bet satisfies the claimed legality condition, yet `can_double_down`
rejects it, because the code additionally requires a hand total of 9, 10 or
11 — so double down is not offered "exactly when" the claim states. -/
theorem claim_C5_counterexample :
    specDoubleDownLegal hardEightFixture ∧
      hardEightFixture.can_double_down = false := by
  constructor
  · exact ⟨rfl, rfl, by norm_num [hardEightFixture]⟩
  · norm_num [PlayerSim.can_double_down, hardEightFixture]

theorem sum_set_double_cast (l : List ℕ) (i : ℕ) :
    ((l.set i (2 * l.getD i 0)).map (fun b : ℕ => (b : ℚ))).sum
      = (l.map (fun b : ℕ => (b : ℚ))).sum + (l.getD i 0 : ℚ) := by
  induction l generalizing i with
  | nil => simp
  | cons x xs ih =>
    cases i with
    | zero =>
      simp only [List.set_cons_zero, List.getD_cons_zero, List.map_cons,
        List.sum_cons, Nat.cast_mul, Nat.cast_ofNat]
      ring
    | succ j =>
      simp only [List.set_cons_succ, List.getD_cons_succ, List.map_cons,
        List.sum_cons, ih j]
      ring

/-- C5 amended: double down is offered exactly when the current sub-hand is
the first one, the balance covers an additional equal stake, and one of the
present totals is 9, 10 or 11 (no two-card requirement); offering it through
`get_playing_options` coincides with `can_double_down`; and applying it
doubles the bet while drawing the additional stake from the balance (their
sum is conserved), draws exactly one card into the hand updating the count,
and forcibly stands the hand. -/
theorem claim_C5_amended :
    (∀ (σ : Type) (p : PlayerSim σ), p.can_double_down = true ↔
      (p.hand_idx = 0 ∧ (p.bets.getD p.hand_idx 0 : ℚ) ≤ p.balance ∧
        (((p.hand_values.getD p.hand_idx []).getD 0 0 = 9 ∨
          (p.hand_values.getD p.hand_idx []).getD 0 0 = 10 ∨
          (p.hand_values.getD p.hand_idx []).getD 0 0 = 11) ∨
         ((p.hand_values.getD p.hand_idx []).length = 2 ∧
          ((p.hand_values.getD p.hand_idx []).getD 1 0 = 9 ∨
           (p.hand_values.getD p.hand_idx []).getD 1 0 = 10 ∨
           (p.hand_values.getD p.hand_idx []).getD 1 0 = 11))))) ∧
    (∀ (σ : Type) (p : PlayerSim σ) (c : Card),
      "double down" ∈ p.get_playing_options c ↔ p.can_double_down = true) ∧
    (∀ (σ : Type) (st : Strategy σ) (t : BlackjackTableSim) (p : PlayerSim σ)
      (c : Card) (d : Deck), t.deck.get_next_card = some (c, d) →
      ∃ t' p', BlackjackTableSim.double_down st t p = some (t', p') ∧
        p'.bets = p.bets.set p.hand_idx (2 * p.bets.getD p.hand_idx 0) ∧
        p'.balance = p.balance - (p.bets.getD p.hand_idx 0 : ℚ) ∧
        p'.balance + (p'.bets.map (fun b : ℕ => (b : ℚ))).sum
          = p.balance + (p.bets.map (fun b : ℕ => (b : ℚ))).sum ∧
        p'.hand = modifyAt p.hand p.hand_idx (fun h => h ++ [c]) ∧
        p'.strategy = st.update p.strategy c ∧
        p'.hand_idx = p.hand_idx + 1 ∧
        t' = { t with deck := d }) := by
  refine ⟨?_, ?_, ?_⟩
  · intro σ p
    rw [PlayerSim.can_double_down]
    by_cases hlen : (p.hand_values.getD p.hand_idx []).length = 2
    · rw [if_pos (by simpa using hlen)]
      constructor <;> intro h <;>
        simp only [Bool.and_eq_true, Bool.or_eq_true, beq_iff_eq,
          decide_eq_true_eq] at h ⊢ <;>
        tauto
    · rw [if_neg (by simpa using hlen)]
      constructor <;> intro h <;>
        simp only [Bool.and_eq_true, Bool.or_eq_true, beq_iff_eq,
          decide_eq_true_eq] at h ⊢ <;>
        tauto
  · intro σ p c
    cases hd : p.can_double_down <;>
      cases hs : (p.surrender_flag && p.can_surrender c) <;>
      cases hsp : p.can_split <;>
      simp [PlayerSim.get_playing_options, hd, hs, hsp]
  · intro σ st t p c d hdraw
    refine ⟨{ t with deck := d },
      (((p.double_down.receive_card c).update_strategy st [c]).stand), ?_, ?_, ?_, ?_, ?_, ?_, ?_, rfl⟩
    · simp [BlackjackTableSim.double_down, hdraw]
    · simp [PlayerSim.stand, PlayerSim.update_strategy, PlayerSim.receive_card,
        PlayerSim.double_down]
    · simp [PlayerSim.stand, PlayerSim.update_strategy, PlayerSim.receive_card,
        PlayerSim.double_down]
    · simp only [PlayerSim.stand, PlayerSim.update_strategy, PlayerSim.receive_card,
        PlayerSim.double_down]
      rw [sum_set_double_cast]
      ring
    · simp [PlayerSim.stand, PlayerSim.update_strategy, PlayerSim.receive_card,
        PlayerSim.double_down]
    · simp [PlayerSim.stand, PlayerSim.update_strategy, PlayerSim.receive_card,
        PlayerSim.double_down]
    · simp [PlayerSim.stand, PlayerSim.update_strategy, PlayerSim.receive_card,
        PlayerSim.double_down]

/-- Witness for C5: the amended application behaviour at the concrete table
fixture, whose next card is the 5 of suit 0. -/
theorem claim_C5_witness :
    ∃ t' p', BlackjackTableSim.double_down traceStrat tableFixture splitFixture
        = some (t', p') ∧
      p'.bets = splitFixture.bets.set splitFixture.hand_idx
        (2 * splitFixture.bets.getD splitFixture.hand_idx 0) ∧
      p'.balance = splitFixture.balance
        - (splitFixture.bets.getD splitFixture.hand_idx 0 : ℚ) ∧
      p'.balance + (p'.bets.map (fun b : ℕ => (b : ℚ))).sum
        = splitFixture.balance + (splitFixture.bets.map (fun b : ℕ => (b : ℚ))).sum ∧
      p'.hand = modifyAt splitFixture.hand splitFixture.hand_idx
        (fun h => h ++ [⟨0, 5⟩]) ∧
      p'.strategy = traceStrat.update splitFixture.strategy ⟨0, 5⟩ ∧
      p'.hand_idx = splitFixture.hand_idx + 1 ∧
      t' = { tableFixture with
        deck := { cards := [⟨0, 5⟩, ⟨1, 6⟩, ⟨2, 2⟩, ⟨3, 3⟩], deck_pos := 1,
                  shuffle_flag_pos := 100, shuffle_flag := false } } := by
  have h := claim_C5_amended.2.2 (List Card) traceStrat tableFixture splitFixture
    ⟨0, 5⟩ { cards := [⟨0, 5⟩, ⟨1, 6⟩, ⟨2, 2⟩, ⟨3, 3⟩], deck_pos := 1,
             shuffle_flag_pos := 100, shuffle_flag := false } rfl
  obtain ⟨t', p', h1, h2, h3, h4, h5, h6, h7, h8⟩ := h
  exact ⟨t', p', h1, h2, h3, h4, h5, h6, h7, h8⟩

/-- A simulator configured for two runs of one hand each, with empty
accumulators. -/
def simFixture : BlackjackSimulator :=
  { accumulated_wins := 0
    accumulated_pushes := 0
    accumulated_losses := 0
    accumulated_winnings := 0
    num_early_endings := 0
    num_player_blackjacks := 0
    num_simulations := 2
    hands_per_simulation := 1
    label := "hilo" }

/-- Game totals of a first run: one hand won, +10 winnings. -/
def runWin : RunTotals :=
  { total_wins := 1, total_pushes := 0, total_losses := 0, total_winnings := 10,
    num_player_blackjacks := 0, ended_early := false }

/-- Game totals of a second run: one hand lost, −10 winnings. -/
def runLoss : RunTotals :=
  { total_wins := 0, total_pushes := 0, total_losses := 1, total_winnings := -10,
    num_player_blackjacks := 0, ended_early := false }

/-- C7 (code-bug evidence): a worker doing two runs — a win, then a loss —
sends summaries with wins fields 1 and 1: the second summary repeats the first
run's win because `BlackjackSimulation::reset` never clears the accumulated
fields, so every sent summary is a cumulative prefix rather than a delta.
The field-wise sum of the sent summaries (2 wins, 10 winnings) differs from
the totals the simulator actually accumulated (1 win, 0 winnings), and the
first run's win contributes to both sent summaries. -/
theorem claim_C7_worker_sends_cumulative :
    ((BlackjackSimulator.worker simFixture [runWin, runLoss]).1.map
        SimulationSummary.wins = [1, 1]) ∧
    ((BlackjackSimulator.worker simFixture [runWin, runLoss]).1.map
        SimulationSummary.wins).sum = 2 ∧
    (BlackjackSimulator.worker simFixture [runWin, runLoss]).2.accumulated_wins = 1 ∧
    ((BlackjackSimulator.worker simFixture [runWin, runLoss]).1.map
        SimulationSummary.winnings).sum = 10 ∧
    (BlackjackSimulator.worker simFixture [runWin, runLoss]).2.accumulated_winnings = 0 ∧
    ((BlackjackSimulator.worker simFixture [runWin, runLoss]).1.map
        SimulationSummary.wins).sum
      ≠ (BlackjackSimulator.worker simFixture [runWin, runLoss]).2.accumulated_wins := by
  norm_num [BlackjackSimulator.worker, BlackjackSimulator.run_single_simulation,
    BlackjackSimulator.summary, BlackjackSimulator.reset, simFixture, runWin, runLoss]

/-- A strategy whose betting policy always returns 0, signalling
end-of-bankroll. -/
def zeroBetStrat : Strategy Unit :=
  { update := fun s _ => s
    bet := fun _ _ => 0
    decide_option := fun _ _ _ => Except.ok "stand"
    reset := fun s => s }

/-- A fresh one-hand game with balance 500 and table minimum 5. -/
def gameFixture : BlackjackGameSim Unit :=
  { table := tableFixture
    player := { hand := [[]], hand_values := [[]], bets := [], bets_log := [],
                hand_idx := 0, balance := 500, strategy := (), surrender_flag := true }
    min_bet := 5
    num_hands := 1
    total_wins := 0
    total_pushes := 0
    total_losses := 0
    total_winnings := 0
    num_player_blackjacks := 0
    ended_early := false }

/-- C6 counterexample: with ample balance and a betting policy returning 0,
`run` returns the fatal "out of funds" error instead of the claimed Ok with
the ended-early flag set. -/
theorem claim_C6_counterexample :
    BlackjackGameSim.run zeroBetStrat id 10 1 gameFixture
      = some (Except.error "out of funds") := by
  have hc : gameFixture.player.continue_play gameFixture.min_bet = true := by
    simp [PlayerSim.continue_play, ratToNat, gameFixture]
    decide
  have hbet : PlayerSim.bet zeroBetStrat gameFixture.player
      = Except.error "out of funds" := rfl
  simp [BlackjackGameSim.run, hc, hbet]

/-- C6 amended: normal early termination (Ok result with the ended-early flag
set, before the hand) happens exactly when the balance check `continue_play`
fails before the bet is fetched; a betting policy returning 0 instead makes
`run` return the fatal "out of funds" error, and a nonzero bet below the
table minimum makes it return the below-minimum error. -/
theorem claim_C6_zero_bet_is_error (σ : Type) (st : Strategy σ)
    (shuf : List Card → List Card) (fuel n : ℕ) (g : BlackjackGameSim σ) :
    (¬ g.player.continue_play g.min_bet = true →
      BlackjackGameSim.run st shuf fuel (n + 1) g
        = some (Except.ok { g with ended_early := true })) ∧
    (g.player.continue_play g.min_bet = true →
      st.bet g.player.strategy g.player.balance = 0 →
      BlackjackGameSim.run st shuf fuel (n + 1) g
        = some (Except.error "out of funds")) ∧
    (∀ b : ℕ, g.player.continue_play g.min_bet = true →
      st.bet g.player.strategy g.player.balance = b → 0 < b → b < g.min_bet →
      BlackjackGameSim.run st shuf fuel (n + 1) g
        = some (Except.error "player tried to bet less than table minimum")) := by
  refine ⟨?_, ?_, ?_⟩
  · intro hc
    simp [BlackjackGameSim.run, hc]
  · intro hc hb
    have hbet : PlayerSim.bet st g.player = Except.error "out of funds" := by
      simp [PlayerSim.bet, hb]
    simp [BlackjackGameSim.run, hc, hbet]
  · intro b hc hb hpos hmin
    have hbet : PlayerSim.bet st g.player = Except.ok b := by
      simp [PlayerSim.bet, hb]
      omega
    simp [BlackjackGameSim.run, hc, hbet, hmin]

/-- Witness for C6: the amended theorem applied at the concrete zero-bet
strategy and fresh game. -/
theorem claim_C6_witness :
    BlackjackGameSim.run zeroBetStrat id 10 1 gameFixture
      = some (Except.error "out of funds") :=
  (claim_C6_zero_bet_is_error Unit zeroBetStrat id 10 0 gameFixture).2.1
    (by simp [PlayerSim.continue_play, ratToNat, gameFixture]; decide) rfl

/-! The aggregator model for the multi-strategy runner. -/

/-- The six counter fields the aggregator merges, as one additive tuple:
wins, pushes, losses, early endings, winnings, player blackjacks. -/
abbrev Totals : Type := ℤ × ℤ × ℤ × ℤ × ℚ × ℤ

/-- The merged counter fields of a summary. -/
def totalsOf (s : SimulationSummary) : Totals :=
  (s.wins, s.pushes, s.losses, s.early_endings, s.winnings, s.player_blackjacks)

/-- The totals recorded for `id` in the aggregator's per-id map
(first-match lookup, `HashMap::get`), zero when the id is absent. -/
def aggTotals : List (ℕ × SimulationSummary) → ℕ → Totals
  | [], _ => 0
  | (k, s) :: tl, id => if k = id then totalsOf s else aggTotals tl id

/-- How many sentinel messages for `id` a message sequence holds. -/
def sentinelCount (msgs : List (Option SimulationSummary × ℕ)) (id : ℕ) : ℕ :=
  (msgs.filter (fun m => m.1.isNone && m.2 == id)).length

/-- The arithmetic sum of the counter fields of all Some-deltas carried for
`id` by a message sequence. -/
def deltaSum (msgs : List (Option SimulationSummary × ℕ)) (id : ℕ) : Totals :=
  ((msgs.filterMap (fun m => if m.2 = id then m.1 else none)).map totalsOf).sum

/-- A message sequence in which no Some-delta for an id follows that id's
sentinel — true of every interleaving of per-worker streams, since each
worker sends all its deltas before its own sentinel. -/
def noDeltaAfterSentinel : List (Option SimulationSummary × ℕ) → Bool
  | [] => true
  | (m, i) :: rest =>
    (match m with
     | none => rest.all (fun x => !(x.1.isSome && x.2 == i))
     | some _ => true) && noDeltaAfterSentinel rest

theorem totalsOf_merge (a b : SimulationSummary) :
    totalsOf (mergeSummary a b) = totalsOf a + totalsOf b := rfl

theorem aggTotals_map_ne (tl : List (ℕ × SimulationSummary)) (i : ℕ)
    (s : SimulationSummary) (id : ℕ) (h : id ≠ i) :
    aggTotals (tl.map (fun p => if p.1 = i then (p.1, mergeSummary p.2 s) else p)) id
      = aggTotals tl id := by
  induction tl with
  | nil => rfl
  | cons hd tl ih =>
    by_cases hk : hd.1 = i
    · rw [List.map_cons, if_pos hk]
      rw [show aggTotals ((hd.1, mergeSummary hd.2 s) :: List.map
          (fun p => if p.1 = i then (p.1, mergeSummary p.2 s) else p) tl) id
        = if hd.1 = id then totalsOf (mergeSummary hd.2 s)
          else aggTotals (List.map
            (fun p => if p.1 = i then (p.1, mergeSummary p.2 s) else p) tl) id from rfl]
      rw [if_neg (by rw [hk]; exact Ne.symm h)]
      rw [show aggTotals (hd :: tl) id
        = if hd.1 = id then totalsOf hd.2 else aggTotals tl id from rfl]
      rw [if_neg (by rw [hk]; exact Ne.symm h)]
      exact ih
    · rw [List.map_cons, if_neg hk]
      rw [show aggTotals (hd :: List.map
          (fun p => if p.1 = i then (p.1, mergeSummary p.2 s) else p) tl) id
        = if hd.1 = id then totalsOf hd.2 else aggTotals (List.map
            (fun p => if p.1 = i then (p.1, mergeSummary p.2 s) else p) tl) id from rfl]
      rw [show aggTotals (hd :: tl) id
        = if hd.1 = id then totalsOf hd.2 else aggTotals tl id from rfl]
      by_cases hd2 : hd.1 = id
      · rw [if_pos hd2, if_pos hd2]
      · rw [if_neg hd2, if_neg hd2]
        exact ih

theorem aggTotals_map_eq_of_any (tl : List (ℕ × SimulationSummary)) (i : ℕ)
    (s : SimulationSummary) (h : tl.any (fun p => p.1 == i) = true) :
    aggTotals (tl.map (fun p => if p.1 = i then (p.1, mergeSummary p.2 s) else p)) i
      = aggTotals tl i + totalsOf s := by
  induction tl with
  | nil => simp at h
  | cons hd tl ih =>
    by_cases hk : hd.1 = i
    · rw [List.map_cons, if_pos hk]
      rw [show aggTotals ((hd.1, mergeSummary hd.2 s) :: List.map
          (fun p => if p.1 = i then (p.1, mergeSummary p.2 s) else p) tl) i
        = if hd.1 = i then totalsOf (mergeSummary hd.2 s)
          else aggTotals (List.map
            (fun p => if p.1 = i then (p.1, mergeSummary p.2 s) else p) tl) i from rfl]
      rw [if_pos hk, totalsOf_merge]
      rw [show aggTotals (hd :: tl) i
        = if hd.1 = i then totalsOf hd.2 else aggTotals tl i from rfl]
      rw [if_pos hk]
    · have h' : tl.any (fun p => p.1 == i) = true := by
        rcases hb : tl.any (fun p => p.1 == i)
        · rw [List.any_cons, hb] at h
          simp [hk] at h
        · rfl
      rw [List.map_cons, if_neg hk]
      rw [show aggTotals (hd :: List.map
          (fun p => if p.1 = i then (p.1, mergeSummary p.2 s) else p) tl) i
        = if hd.1 = i then totalsOf hd.2 else aggTotals (List.map
            (fun p => if p.1 = i then (p.1, mergeSummary p.2 s) else p) tl) i from rfl]
      rw [show aggTotals (hd :: tl) i
        = if hd.1 = i then totalsOf hd.2 else aggTotals tl i from rfl]
      rw [if_neg hk, if_neg hk]
      exact ih h'

theorem aggTotals_zero_of_not_any (acc : List (ℕ × SimulationSummary)) (i : ℕ)
    (h : acc.any (fun p => p.1 == i) = false) :
    aggTotals acc i = 0 := by
  induction acc with
  | nil => rfl
  | cons hd tl ih =>
    have hh : ¬ hd.1 = i := by
      intro hc
      rw [List.any_cons] at h
      simp [hc] at h
    have htl : tl.any (fun p => p.1 == i) = false := by
      rcases hb : tl.any (fun p => p.1 == i)
      · rfl
      · rw [List.any_cons, hb] at h
        simp at h
    rw [show aggTotals (hd :: tl) i
      = if hd.1 = i then totalsOf hd.2 else aggTotals tl i from rfl]
    rw [if_neg hh]
    exact ih htl

theorem aggTotals_append_single_ne (acc : List (ℕ × SimulationSummary)) (i : ℕ)
    (s : SimulationSummary) (id : ℕ) (h : id ≠ i) :
    aggTotals (acc ++ [(i, s)]) id = aggTotals acc id := by
  induction acc with
  | nil =>
    rw [List.nil_append]
    rw [show aggTotals [(i, s)] id
      = if i = id then totalsOf s else aggTotals [] id from rfl]
    rw [if_neg (Ne.symm h)]
  | cons hd tl ih =>
    rw [List.cons_append]
    rw [show aggTotals (hd :: (tl ++ [(i, s)])) id
      = if hd.1 = id then totalsOf hd.2 else aggTotals (tl ++ [(i, s)]) id from rfl]
    rw [show aggTotals (hd :: tl) id
      = if hd.1 = id then totalsOf hd.2 else aggTotals tl id from rfl]
    by_cases hd2 : hd.1 = id
    · rw [if_pos hd2, if_pos hd2]
    · rw [if_neg hd2, if_neg hd2]
      exact ih

theorem aggTotals_append_single_self (acc : List (ℕ × SimulationSummary)) (i : ℕ)
    (s : SimulationSummary) (h : acc.any (fun p => p.1 == i) = false) :
    aggTotals (acc ++ [(i, s)]) i = totalsOf s := by
  induction acc with
  | nil =>
    rw [List.nil_append]
    rw [show aggTotals [(i, s)] i
      = if i = i then totalsOf s else aggTotals [] i from rfl]
    rw [if_pos rfl]
  | cons hd tl ih =>
    have hh : ¬ hd.1 = i := by
      intro hc
      rw [List.any_cons] at h
      simp [hc] at h
    have htl : tl.any (fun p => p.1 == i) = false := by
      rcases hb : tl.any (fun p => p.1 == i)
      · rfl
      · rw [List.any_cons, hb] at h
        simp at h
    rw [List.cons_append]
    rw [show aggTotals (hd :: (tl ++ [(i, s)])) i
      = if hd.1 = i then totalsOf hd.2 else aggTotals (tl ++ [(i, s)]) i from rfl]
    rw [if_neg hh]
    exact ih htl

theorem aggTotals_aggInsert (acc : List (ℕ × SimulationSummary)) (i : ℕ)
    (s : SimulationSummary) (id : ℕ) :
    aggTotals (aggInsert acc i s) id
      = aggTotals acc id + (if id = i then totalsOf s else 0) := by
  by_cases hany : acc.any (fun p => p.1 == i) = true
  · rw [aggInsert, if_pos hany]
    by_cases hid : id = i
    · subst hid
      rw [aggTotals_map_eq_of_any acc id s hany]
      simp
    · rw [aggTotals_map_ne acc i s id hid]
      simp [hid]
  · have hany' : acc.any (fun p => p.1 == i) = false := by
      rcases hb : acc.any (fun p => p.1 == i)
      · rfl
      · exact absurd hb hany
    rw [aggInsert, if_neg hany]
    by_cases hid : id = i
    · subst hid
      rw [aggTotals_zero_of_not_any acc id hany',
        aggTotals_append_single_self acc id s hany']
      simp
    · rw [aggTotals_append_single_ne acc i s id hid]
      simp [hid]

theorem sentinelCount_cons_some (s : SimulationSummary) (j : ℕ)
    (rest : List (Option SimulationSummary × ℕ)) (id : ℕ) :
    sentinelCount ((some s, j) :: rest) id = sentinelCount rest id := by
  simp [sentinelCount, List.filter_cons]

theorem sentinelCount_cons_none (j : ℕ)
    (rest : List (Option SimulationSummary × ℕ)) (id : ℕ) :
    sentinelCount (((none : Option SimulationSummary), j) :: rest) id
      = (if j = id then 1 else 0) + sentinelCount rest id := by
  by_cases hj : j = id
  · simp [sentinelCount, List.filter_cons, hj]
    omega
  · simp [sentinelCount, List.filter_cons, hj]

theorem deltaSum_cons_some (s : SimulationSummary) (j : ℕ)
    (rest : List (Option SimulationSummary × ℕ)) (id : ℕ) :
    deltaSum ((some s, j) :: rest) id
      = (if j = id then totalsOf s else 0) + deltaSum rest id := by
  by_cases hj : j = id <;> simp [deltaSum, List.filterMap_cons, hj]

theorem deltaSum_cons_none (j : ℕ)
    (rest : List (Option SimulationSummary × ℕ)) (id : ℕ) :
    deltaSum (((none : Option SimulationSummary), j) :: rest) id = deltaSum rest id := by
  by_cases hj : j = id <;> simp [deltaSum, List.filterMap_cons, hj]

theorem no_some_of_all {rest : List (Option SimulationSummary × ℕ)} {i : ℕ}
    (h : rest.all (fun x => !(x.1.isSome && x.2 == i)) = true)
    (s : SimulationSummary) : (some s, i) ∉ rest := by
  intro hmem
  have hx := List.all_eq_true.mp h _ hmem
  simp at hx

theorem ndas_cons (m : Option SimulationSummary) (i : ℕ)
    (rest : List (Option SimulationSummary × ℕ))
    (h : noDeltaAfterSentinel ((m, i) :: rest) = true) :
    noDeltaAfterSentinel rest = true := by
  cases m with
  | none =>
    simp only [noDeltaAfterSentinel, Bool.and_eq_true] at h
    exact h.2
  | some s => simpa [noDeltaAfterSentinel] using h

theorem ndas_head_all (i : ℕ) (rest : List (Option SimulationSummary × ℕ))
    (h : noDeltaAfterSentinel (((none : Option SimulationSummary), i) :: rest) = true) :
    rest.all (fun x => !(x.1.isSome && x.2 == i)) = true := by
  simp only [noDeltaAfterSentinel, Bool.and_eq_true] at h
  exact h.1

theorem sentinelCount_pos_of_mem {rest : List (Option SimulationSummary × ℕ)}
    {j : ℕ} (h : ((none : Option SimulationSummary), j) ∈ rest) :
    0 < sentinelCount rest j := by
  rw [sentinelCount, List.length_pos]
  intro hnil
  have : ((none : Option SimulationSummary), j)
      ∈ rest.filter (fun m => m.1.isNone && m.2 == j) := by
    rw [List.mem_filter]
    exact ⟨h, by simp⟩
  rw [hnil] at this
  exact absurd this (List.not_mem_nil _)

theorem aggregate_wf_eq :
    ∀ (msgs : List (Option SimulationSummary × ℕ)) (pending : Finset ℕ)
      (acc : List (ℕ × SimulationSummary)),
    pending.Nonempty →
    (∀ m ∈ msgs, m.2 ∈ pending) →
    (∀ id ∈ pending, sentinelCount msgs id = 1) →
    noDeltaAfterSentinel msgs = true →
    ∃ final, aggregate msgs pending acc = some final ∧
      ∀ id, aggTotals final id = aggTotals acc id + deltaSum msgs id := by
  intro msgs
  induction msgs with
  | nil =>
    intro pending acc hne hmem hcount hnd
    obtain ⟨i, hi⟩ := hne
    have h0 := hcount i hi
    simp [sentinelCount] at h0
  | cons hd rest ih =>
    obtain ⟨m, j⟩ := hd
    intro pending acc hne hmem hcount hnd
    cases m with
    | some s =>
      have hrest := ih pending (aggInsert acc j s) hne
        (fun x hx => hmem x (List.mem_cons_of_mem _ hx))
        (fun id hid => by
          rw [← sentinelCount_cons_some s j rest id]
          exact hcount id hid)
        (ndas_cons _ _ _ hnd)
      obtain ⟨final, hagg, htot⟩ := hrest
      refine ⟨final, ?_, ?_⟩
      · rw [show aggregate ((some s, j) :: rest) pending acc
          = aggregate rest pending (aggInsert acc j s) from rfl]
        exact hagg
      · intro id
        rw [htot id, aggTotals_aggInsert, deltaSum_cons_some]
        have hswap : (if j = id then totalsOf s else 0)
            = (if id = j then totalsOf s else 0) := by
          by_cases hij : id = j
          · simp [hij]
          · rw [if_neg hij, if_neg (fun hc => hij hc.symm)]
        rw [hswap, add_assoc]
    | none =>
      have hj : j ∈ pending := hmem (none, j) (List.mem_cons_self _ _)
      have hcj := hcount j hj
      rw [sentinelCount_cons_none, if_pos rfl] at hcj
      have hcrest : sentinelCount rest j = 0 := by omega
      have hall := ndas_head_all j rest hnd
      by_cases hpe : pending.erase j = ∅
      · have hpend : ∀ x ∈ pending, x = j := by
          intro x hx
          by_contra hxj
          have : x ∈ pending.erase j := Finset.mem_erase.mpr ⟨hxj, hx⟩
          rw [hpe] at this
          exact absurd this (Finset.not_mem_empty x)
        have hrest_nil : rest = [] := by
          rw [List.eq_nil_iff_forall_not_mem]
          intro x hx
          obtain ⟨mm, jj⟩ := x
          have hjj : jj ∈ pending := hmem _ (List.mem_cons_of_mem _ hx)
          have hjeq : jj = j := hpend jj hjj
          subst hjeq
          cases mm with
          | some s2 => exact no_some_of_all hall s2 hx
          | none =>
            have hpos := sentinelCount_pos_of_mem hx
            omega
        subst hrest_nil
        refine ⟨acc, ?_, ?_⟩
        · rw [show aggregate [((none : Option SimulationSummary), j)] pending acc
            = (if pending.erase j = ∅ then some acc
                else aggregate [] (pending.erase j) acc) from rfl]
          rw [if_pos hpe]
        · intro id
          rw [deltaSum_cons_none]
          simp [deltaSum]
      · have hne' : (pending.erase j).Nonempty := Finset.nonempty_iff_ne_empty.mpr hpe
        have hmem' : ∀ x ∈ rest, x.2 ∈ pending.erase j := by
          intro x hx
          obtain ⟨mm, jj⟩ := x
          have hjj : jj ∈ pending := hmem _ (List.mem_cons_of_mem _ hx)
          have hne_j : jj ≠ j := by
            intro hc
            subst hc
            cases mm with
            | some s2 => exact no_some_of_all hall s2 hx
            | none =>
              have hpos := sentinelCount_pos_of_mem hx
              omega
          exact Finset.mem_erase.mpr ⟨hne_j, hjj⟩
        have hcount' : ∀ id ∈ pending.erase j, sentinelCount rest id = 1 := by
          intro id hid
          obtain ⟨hne_j, hidp⟩ := Finset.mem_erase.mp hid
          have hc := hcount id hidp
          rw [sentinelCount_cons_none, if_neg (fun hc2 => hne_j hc2.symm)] at hc
          omega
        obtain ⟨final, hagg, htot⟩ :=
          ih (pending.erase j) acc hne' hmem' hcount' (ndas_cons _ _ _ hnd)
        refine ⟨final, ?_, ?_⟩
        · rw [show aggregate (((none : Option SimulationSummary), j) :: rest) pending acc
            = (if pending.erase j = ∅ then some acc
                else aggregate rest (pending.erase j) acc) from rfl]
          rw [if_neg hpe]
          exact hagg
        · intro id
          rw [htot id, deltaSum_cons_none]

theorem aggregate_isSome_iff :
    ∀ (msgs : List (Option SimulationSummary × ℕ)) (pending : Finset ℕ)
      (acc : List (ℕ × SimulationSummary)),
    pending.Nonempty →
    ((aggregate msgs pending acc).isSome = true ↔
      ∀ id ∈ pending, ((none : Option SimulationSummary), id) ∈ msgs) := by
  intro msgs
  induction msgs with
  | nil =>
    intro pending acc hne
    obtain ⟨i, hi⟩ := hne
    constructor
    · intro h
      simp [aggregate] at h
    · intro h
      exact absurd (h i hi) (List.not_mem_nil _)
  | cons hd rest ih =>
    obtain ⟨m, j⟩ := hd
    intro pending acc hne
    cases m with
    | some s =>
      rw [show aggregate ((some s, j) :: rest) pending acc
        = aggregate rest pending (aggInsert acc j s) from rfl]
      rw [ih pending (aggInsert acc j s) hne]
      constructor
      · intro h id hid
        exact List.mem_cons_of_mem _ (h id hid)
      · intro h id hid
        rcases List.mem_cons.mp (h id hid) with hc | hc
        · exact absurd hc (by simp)
        · exact hc
    | none =>
      rw [show aggregate (((none : Option SimulationSummary), j) :: rest) pending acc
        = (if pending.erase j = ∅ then some acc
            else aggregate rest (pending.erase j) acc) from rfl]
      by_cases hpe : pending.erase j = ∅
      · rw [if_pos hpe]
        constructor
        · intro _ id hid
          have hpend : id = j := by
            by_contra hxj
            have hmm : id ∈ pending.erase j := Finset.mem_erase.mpr ⟨hxj, hid⟩
            rw [hpe] at hmm
            exact absurd hmm (Finset.not_mem_empty id)
          subst hpend
          exact List.mem_cons_self _ _
        · intro _
          simp
      · rw [if_neg hpe]
        have hne' : (pending.erase j).Nonempty := Finset.nonempty_iff_ne_empty.mpr hpe
        rw [ih (pending.erase j) acc hne']
        constructor
        · intro h id hid
          by_cases hij : id = j
          · subst hij
            exact List.mem_cons_self _ _
          · exact List.mem_cons_of_mem _ (h id (Finset.mem_erase.mpr ⟨hij, hid⟩))
        · intro h id hid
          obtain ⟨hij, hidp⟩ := Finset.mem_erase.mp hid
          rcases List.mem_cons.mp (h id hidp) with hc | hc
          · exact absurd hc (by simp [hij])
          · exact hc

theorem deltaSum_perm (msgs msgs' : List (Option SimulationSummary × ℕ))
    (h : msgs.Perm msgs') (id : ℕ) : deltaSum msgs id = deltaSum msgs' id :=
  List.Perm.sum_eq ((h.filterMap _).map _)

/-- A concrete summary delta: one win, 10 winnings. -/
def deltaFixture : SimulationSummary :=
  { wins := 1, pushes := 0, losses := 0, early_endings := 0, winnings := 10,
    num_hands := 1, player_blackjacks := 0, label := "hilo" }

/-- C8 counterexample: for K = 1 worker, the message sequences
sentinel-then-delta and delta-then-sentinel are permutations of one another,
yet the aggregator stops at the sentinel and never consumes messages after
it: the first sequence yields an empty merged map and the second merges the
delta, so the final merged totals are NOT the same for every permutation of
the message sequence. -/
theorem claim_C8_counterexample :
    [((none : Option SimulationSummary), 1), (some deltaFixture, 1)].Perm
      [(some deltaFixture, 1), ((none : Option SimulationSummary), 1)] ∧
    aggregate [((none : Option SimulationSummary), 1), (some deltaFixture, 1)]
      {1} [] = some [] ∧
    aggregate [(some deltaFixture, 1), ((none : Option SimulationSummary), 1)]
      {1} [] = some [(1, deltaFixture)] ∧
    aggregate [((none : Option SimulationSummary), 1), (some deltaFixture, 1)] {1} []
      ≠ aggregate [(some deltaFixture, 1), ((none : Option SimulationSummary), 1)]
        {1} [] := by
  refine ⟨List.Perm.swap _ _ _, rfl, rfl, ?_⟩
  intro h
  rw [show aggregate [((none : Option SimulationSummary), 1), (some deltaFixture, 1)]
      {1} [] = some [] from rfl] at h
  rw [show aggregate [(some deltaFixture, 1), ((none : Option SimulationSummary), 1)]
      {1} [] = some [(1, deltaFixture)] from rfl] at h
  simp at h

/-- C8 amended: with the pending set initialised to the worker ids, the
aggregator terminates exactly when every id's sentinel has been consumed; on
every well-formed sequence (messages keyed by pending ids, exactly one
sentinel per id, and no delta after its own id's sentinel — true of every
interleaving of the per-worker streams) it consumes all messages and the
merged totals for each id equal the arithmetic sum of that id's deltas; and
consequently any two well-formed permutations of the same messages produce
identical merged totals for every id. -/
theorem claim_C8_aggregator :
    (∀ (ids : Finset ℕ) (msgs : List (Option SimulationSummary × ℕ)),
      ids.Nonempty →
      ((aggregate msgs ids []).isSome = true ↔
        ∀ id ∈ ids, ((none : Option SimulationSummary), id) ∈ msgs)) ∧
    (∀ (ids : Finset ℕ) (msgs : List (Option SimulationSummary × ℕ)),
      ids.Nonempty → (∀ m ∈ msgs, m.2 ∈ ids) →
      (∀ id ∈ ids, sentinelCount msgs id = 1) →
      noDeltaAfterSentinel msgs = true →
      ∃ final, aggregate msgs ids [] = some final ∧
        ∀ id, aggTotals final id = deltaSum msgs id) ∧
    (∀ (ids : Finset ℕ) (msgs msgs' : List (Option SimulationSummary × ℕ)),
      ids.Nonempty → msgs.Perm msgs' →
      (∀ m ∈ msgs, m.2 ∈ ids) → (∀ id ∈ ids, sentinelCount msgs id = 1) →
      noDeltaAfterSentinel msgs = true →
      (∀ m ∈ msgs', m.2 ∈ ids) → (∀ id ∈ ids, sentinelCount msgs' id = 1) →
      noDeltaAfterSentinel msgs' = true →
      ∃ f f', aggregate msgs ids [] = some f ∧ aggregate msgs' ids [] = some f' ∧
        ∀ id, aggTotals f id = aggTotals f' id) := by
  have hmain : ∀ (ids : Finset ℕ) (msgs : List (Option SimulationSummary × ℕ)),
      ids.Nonempty → (∀ m ∈ msgs, m.2 ∈ ids) →
      (∀ id ∈ ids, sentinelCount msgs id = 1) →
      noDeltaAfterSentinel msgs = true →
      ∃ final, aggregate msgs ids [] = some final ∧
        ∀ id, aggTotals final id = deltaSum msgs id := by
    intro ids msgs hne hmem hcount hnd
    obtain ⟨final, hagg, htot⟩ := aggregate_wf_eq msgs ids [] hne hmem hcount hnd
    refine ⟨final, hagg, fun id => ?_⟩
    have h0 : aggTotals [] id = 0 := rfl
    rw [htot id, h0, zero_add]
  refine ⟨fun ids msgs hne => aggregate_isSome_iff msgs ids [] hne, hmain, ?_⟩
  intro ids msgs msgs' hne hperm hmem hcount hnd hmem' hcount' hnd'
  obtain ⟨f, hf, htf⟩ := hmain ids msgs hne hmem hcount hnd
  obtain ⟨f', hf', htf'⟩ := hmain ids msgs' hne hmem' hcount' hnd'
  refine ⟨f, f', hf, hf', fun id => ?_⟩
  rw [htf id, htf' id, deltaSum_perm msgs msgs' hperm id]

/-- Witness for C8: the amended theorem applied to the one-worker sequence
delta-then-sentinel. -/
theorem claim_C8_witness :
    ∃ final, aggregate [(some deltaFixture, 1),
        ((none : Option SimulationSummary), 1)] {1} [] = some final ∧
      aggTotals final 1
        = deltaSum [(some deltaFixture, 1),
            ((none : Option SimulationSummary), 1)] 1 := by
  obtain ⟨final, hagg, htot⟩ := claim_C8_aggregator.2.1 {1}
    [(some deltaFixture, 1), ((none : Option SimulationSummary), 1)]
    (Finset.singleton_nonempty 1)
    (by intro m hm; rcases List.mem_cons.mp hm with h | h
        · subst h; simp
        · rcases List.mem_cons.mp h with h2 | h2
          · subst h2; simp
          · exact absurd h2 (List.not_mem_nil _))
    (by intro id hid
        have : id = 1 := by simpa using hid
        subst this
        rfl)
    rfl
  exact ⟨final, hagg, htot 1⟩

/-- The two-card blackjack test applied by both `DealersHandSim::has_blackjack`
and `PlayerSim::has_blackjack`: a ten-valued card and an ace in either
order. -/
def two_card_blackjack (x y : Card) : Bool :=
  (x.val == 10 && y.isAce) || (x.isAce && y.val == 10)

/-- C1: dealing a hand from a fresh table and a freshly reset player who
placed bet `b` out of balance `β`, with the next four shoe cards
`c1` (player), `c2` (dealer up-card), `c3` (player), `c4` (dealer hole card):
if the dealer shows blackjack, the hole card is revealed and counted (the
strategy folds over all four cards) and the hand resolves immediately — a
push returning the bet (balance back to `β`, logged 0, recorded as a player
blackjack) when the player also has blackjack, otherwise an outright loss of
the bet (balance stays `β − b`, logged `−b`); if only the player has
blackjack, the hand resolves immediately (logged `1.5·b`, bet returned, table
debited `1.5·b`, recorded as a player blackjack, hole card not yet counted)
and settling the finished hand leaves the player's net balance at
`β + 1.5·b`; in every case the sub-hand is excluded from further play
(`turn_is_over`). -/
theorem claim_C1_deal_hand_blackjack_resolution (σ : Type) (st : Strategy σ)
    (shuf : List Card → List Card) (c1 c2 c3 c4 : Card) (rest : List Card)
    (fp k : ℕ) (b : ℕ) (β T : ℚ) (s₀ : σ) (f : Bool)
    (L : Option (ℤ × ℤ × ℤ × ℚ)) (N : ℤ) (hb : 0 < b) :
    let t₀ : BlackjackTableSim :=
      { balance := T, hand_log := L, final_cards := [],
        dealers_hand := DealersHandSim.new, num_player_blackjacks := N,
        n_shuffles := k,
        deck := { cards := c1 :: c2 :: c3 :: c4 :: rest, deck_pos := 0,
                  shuffle_flag_pos := fp, shuffle_flag := false } }
    let p₀ : PlayerSim σ :=
      { hand := [[]], hand_values := [[]], bets := [b], bets_log := [],
        hand_idx := 0, balance := β - b, strategy := s₀, surrender_flag := f }
    let proj : BlackjackTableSim × PlayerSim σ →
        List (ℕ × ℚ) × ℚ × List ℕ × Bool × ℤ × σ × ℚ :=
      fun tp => (tp.2.bets_log, tp.2.balance, tp.2.bets, tp.2.turn_is_over,
        tp.1.num_player_blackjacks, tp.2.strategy, tp.1.balance)
    (two_card_blackjack c2 c4 = true → two_card_blackjack c1 c3 = true →
      (BlackjackTableSim.deal_hand st shuf t₀ p₀).map proj
        = some ([(0, 0)], β, [0], true, N + 1,
            [c1, c2, c3, c4].foldl st.update s₀, T)) ∧
    (two_card_blackjack c2 c4 = true → two_card_blackjack c1 c3 = false →
      (BlackjackTableSim.deal_hand st shuf t₀ p₀).map proj
        = some ([(0, -(b : ℚ))], β - b, [0], true, N,
            [c1, c2, c3, c4].foldl st.update s₀, T)) ∧
    (two_card_blackjack c2 c4 = false → two_card_blackjack c1 c3 = true →
      (BlackjackTableSim.deal_hand st shuf t₀ p₀).map proj
        = some ([(0, (b : ℚ) * (3 / 2))], β, [0], true, N + 1,
            [c1, c2, c3].foldl st.update s₀, T - (b : ℚ) * (3 / 2)) ∧
      ((BlackjackTableSim.deal_hand st shuf t₀ p₀).bind
        (fun tp => BlackjackTableSim.finish_hand st tp.1 tp.2)).map
          (fun tp => tp.2.balance)
        = some (β + (b : ℚ) * (3 / 2))) := by
  intro t₀ p₀ proj
  refine ⟨?_, ?_, ?_⟩
  · intro hdbj hpbj
    have hdbjP : c2.val = 10 ∧ c4.isAce = true ∨ c2.isAce = true ∧ c4.val = 10 := by
      simpa [two_card_blackjack] using hdbj
    have hpbjP : c1.val = 10 ∧ c3.isAce = true ∨ c1.isAce = true ∧ c3.val = 10 := by
      simpa [two_card_blackjack] using hpbj
    simp [t₀, p₀, proj, BlackjackTableSim.deal_hand, Deck.get_next_card,
      PlayerSim.receive_card, PlayerSim.update_strategy, DealersHandSim.receive_card,
      DealersHandSim.new, DealersHandSim.has_blackjack, PlayerSim.has_blackjack,
      PlayerSim.push_current_hand, PlayerSim.get_current_bet, PlayerSim.turn_is_over,
      modifyAt, hdbjP, hpbjP, logInsert, List.foldl_cons, List.foldl_nil]
  · intro hdbj hpbj
    have hdbjP : c2.val = 10 ∧ c4.isAce = true ∨ c2.isAce = true ∧ c4.val = 10 := by
      simpa [two_card_blackjack] using hdbj
    have hpbjP : ¬ (c1.val = 10 ∧ c3.isAce = true ∨ c1.isAce = true ∧ c3.val = 10) := by
      simpa [two_card_blackjack, not_or] using hpbj
    simp [t₀, p₀, proj, BlackjackTableSim.deal_hand, Deck.get_next_card,
      PlayerSim.receive_card, PlayerSim.update_strategy, DealersHandSim.receive_card,
      DealersHandSim.new, DealersHandSim.has_blackjack, PlayerSim.has_blackjack,
      PlayerSim.lose_current_hand, PlayerSim.get_current_bet, PlayerSim.turn_is_over,
      modifyAt, hdbjP, hpbjP, logInsert, List.foldl_cons, List.foldl_nil]
  · intro hdbj hpbj
    have hdbjP : ¬ (c2.val = 10 ∧ c4.isAce = true ∨ c2.isAce = true ∧ c4.val = 10) := by
      simpa [two_card_blackjack, not_or] using hdbj
    have hpbjP : c1.val = 10 ∧ c3.isAce = true ∨ c1.isAce = true ∧ c3.val = 10 := by
      simpa [two_card_blackjack] using hpbj
    have hbq : (0 : ℚ) < (b : ℚ) * (3 / 2) := by positivity
    have hne : ((b : ℚ) * (3 / 2)) ≠ 0 := ne_of_gt hbq
    have hnneg : ¬ ((b : ℚ) * (3 / 2) < 0) := not_lt.mpr (le_of_lt hbq)
    constructor
    · simp [t₀, p₀, proj, BlackjackTableSim.deal_hand, Deck.get_next_card,
        PlayerSim.receive_card, PlayerSim.update_strategy, DealersHandSim.receive_card,
        DealersHandSim.new, DealersHandSim.has_blackjack, PlayerSim.has_blackjack,
        PlayerSim.blackjack, PlayerSim.get_current_bet, PlayerSim.turn_is_over,
        modifyAt, hdbjP, hpbjP, logInsert, List.foldl_cons, List.foldl_nil]
    · simp [t₀, p₀, proj, BlackjackTableSim.deal_hand, Deck.get_next_card,
        PlayerSim.receive_card, PlayerSim.update_strategy, DealersHandSim.receive_card,
        DealersHandSim.new, DealersHandSim.has_blackjack, PlayerSim.has_blackjack,
        PlayerSim.blackjack, PlayerSim.get_current_bet, PlayerSim.turn_is_over,
        modifyAt, hdbjP, hpbjP, logInsert, List.foldl_cons, List.foldl_nil,
        BlackjackTableSim.finish_hand, PlayerSim.get_optimal_hands,
        PlayerSim.collect_winnings, hne, hnneg, hbq]

/-- Witness for C1: the dealer shows an ace with a queen hole card and the
player is dealt king-ace — both have blackjack, so the hand pushes with the
bet returned, a recorded player blackjack, and the hole card counted. -/
theorem claim_C1_witness :
    (BlackjackTableSim.deal_hand traceStrat id
        { balance := 1000, hand_log := none, final_cards := [],
          dealers_hand := DealersHandSim.new, num_player_blackjacks := 0,
          n_shuffles := 7,
          deck := { cards := ⟨0, 13⟩ :: ⟨1, 1⟩ :: ⟨0, 1⟩ :: ⟨1, 12⟩ :: [],
                    deck_pos := 0, shuffle_flag_pos := 100, shuffle_flag := false } }
        { hand := [[]], hand_values := [[]], bets := [10], bets_log := [],
          hand_idx := 0, balance := 500 - ((10 : ℕ) : ℚ), strategy := [],
          surrender_flag := true }).map
      (fun tp => (tp.2.bets_log, tp.2.balance, tp.2.bets, tp.2.turn_is_over,
        tp.1.num_player_blackjacks, tp.2.strategy, tp.1.balance))
      = some ([(0, 0)], 500, [0], true, 0 + 1,
          [⟨0, 13⟩, ⟨1, 1⟩, ⟨0, 1⟩, ⟨1, 12⟩].foldl traceStrat.update [], 1000) :=
  (claim_C1_deal_hand_blackjack_resolution (List Card) traceStrat id
    ⟨0, 13⟩ ⟨1, 1⟩ ⟨0, 1⟩ ⟨1, 12⟩ [] 100 7 10 500 1000 [] true none 0
    (by decide)).1 (by decide) (by decide)

end BlackjackSim
